import Mathlib

/-!
Verification of the mkdocs-to-Hugo conversion tool (convert_mkdocs_to_hugo.py).

The development shallowly embeds the text-transformation core of the tool:
strings are modelled as `List Char`; the handful of regular expressions the
tool uses are modelled by dedicated deterministic matchers that follow the
backtracking behaviour of the Python `re` engine on those exact patterns
(greedy and lazy repetition, leftmost match, non-overlapping global
substitution).  Filesystem existence checks are abstracted as boolean
predicates on the path strings the code passes to `os.path.exists`; the
directory tree walked by `Path.rglob` is abstracted as the list of entries
in traversal order.
-/

namespace Mkdocs

/-- Shorthand turning a string literal into the `List Char` representation
used throughout the development. -/
def str (s : String) : List Char := s.toList

/-- Left brace character, written via its code point. -/
def lbrace : Char := Char.ofNat 123

/-- Right brace character, written via its code point. -/
def rbrace : Char := Char.ofNat 125

/-- Single-quote character, written via its code point. -/
def squote : Char := Char.ofNat 39

/-- Double-quote character. -/
def dquote : Char := '"'

/-- Python whitespace as matched by the regex class backslash-s and by
`str.strip` (ASCII fragment: space, tab, newline, carriage return,
vertical tab, form feed). -/
def isPyWs (c : Char) : Bool :=
  c = ' ' ∨ c = '\t' ∨ c = '\n' ∨ c = '\x0d' ∨ c = '\x0b' ∨ c = '\x0c'

/-- Length of the maximal whitespace run at the front of the list. -/
def wsCount (l : List Char) : Nat := (l.takeWhile isPyWs).length

/-- Python `str.lstrip()`. -/
def pyLstrip (l : List Char) : List Char := l.dropWhile isPyWs

/-- Python `str.rstrip()`. -/
def pyRstrip (l : List Char) : List Char := ((l.reverse).dropWhile isPyWs).reverse

/-- Python `str.strip()`. -/
def pyStrip (l : List Char) : List Char := pyRstrip (pyLstrip l)

/-- True when position `i` of `l` carries the three characters `.md`. -/
def isMdAt (l : List Char) (i : Nat) : Bool :=
  l[i]? = some '.' ∧ l[i + 1]? = some 'm' ∧ l[i + 2]? = some 'd'

/-- Index of the last occurrence of `.md` at a position `≥ 1`, the position a
greedy `.+` backtracking over the pattern `.+\.md` stops at. -/
def lastMdIdx (l : List Char) : Option Nat :=
  (List.range l.length).foldl
    (fun acc i => if 1 ≤ i ∧ isMdAt l i then some i else acc) none

/-- Index of the last occurrence of `.md` at a position `≥ 1` that is
immediately followed by a double quote (pattern `.+\.md` followed by `"`). -/
def lastMdDqIdx (l : List Char) : Option Nat :=
  (List.range l.length).foldl
    (fun acc i =>
      if 1 ≤ i ∧ isMdAt l i ∧ l[i + 3]? = some dquote then some i else acc)
    none

/-- The list `[m, m-1, ..., 1]`: the order in which a greedy `\s+` hands
characters back while backtracking from a maximal run of length `m`. -/
def descList (m : Nat) : List Nat := (List.range m).map (fun d => m - d)

/-! ## Front matter stripping (`strip_existing_front_matter`)

The Python code applies, in order, the two DOTALL substitutions
`^---\s*\n.*?\n---\s*\n` → empty and `^+++\s*\n.*?\n+++\s*\n` → empty.
Each pattern is anchored at position 0 (no MULTILINE flag), so each
substitution removes at most one leading block. -/

/-- Indices `i < bound` with `l[i] = newline`, in descending order: the order
in which a greedy `\s*` immediately followed by `\n` proposes split points. -/
def nlIdxsDesc (l : List Char) (bound : Nat) : List Nat :=
  ((List.range bound).reverse).filter (fun i => l.get? i = some '\n')

/-- True when the maximal whitespace run at the front of `l` contains a
newline, i.e. `\s*\n` can consume a prefix of `l` ending right before a
non-whitespace character is demanded next. -/
def wsRunHasNl (l : List Char) : Bool := (l.take (wsCount l)).contains '\n'

/-- Search for the closing delimiter: the minimal `q ≥ p` such that at `q`
the text carries a newline, then the three delimiter characters, then a
whitespace run containing a newline — the continuation of the lazy `.*?`. -/
def findClose (d : Char) (t : List Char) (p : Nat) : Option Nat :=
  (List.range t.length).find? (fun q =>
    p ≤ q ∧ t.get? q = some '\n' ∧
    (t.drop (q + 1)).take 3 = [d, d, d] ∧
    wsRunHasNl (t.drop (q + 4)))

/-- Remove one leading front-matter block delimited by triple `d` characters,
following the Python backtracking order: the opening `\s*\n` proposes newline
split points latest-first, the lazy `.*?` then takes the earliest close. -/
def fmRemove (d : Char) (s : List Char) : List Char :=
  if s.take 3 = [d, d, d] then
    let t := s.drop 3
    match (nlIdxsDesc t (wsCount t)).findSome? (fun k =>
      (findClose d t (k + 1)).bind (fun q =>
        let u := t.drop (q + 4)
        ((nlIdxsDesc u (wsCount u)).head?).map (fun k2 => u.drop (k2 + 1)))) with
    | some rest => rest
    | none => s
  else s

/-- Embedding of `strip_existing_front_matter`: strip one leading YAML block
(`---` fences), then one leading TOML block (`+++` fences). -/
def strip_existing_front_matter (s : List Char) : List Char :=
  fmRemove '+' (fmRemove '-' s)

/-! ## Generic regex-substitution scanner

`reSubF` models `re.sub(pattern, repl, text)` for an anchored matcher `m`:
it scans left to right, and at each position either replaces the (leftmost,
non-overlapping) match and continues after it, or copies one character.  The
`emit` argument collects the side records the replacement callback appends
(used by `replace_yaml_includes` for missing-snippet tracking).  Fuel is
structural; callers pass `length + 1`, which is sufficient because every
matcher consumes at least one character. -/

structure SnipRef where
  snippet : List Char
  referencedIn : List Char
  deriving DecidableEq, Repr

def reSubF (m : List Char → Option (List Char × List Char))
    (repl : List Char → List Char) (emit : List Char → List SnipRef) :
    Nat → List Char → List Char × List SnipRef
  | 0, cs => (cs, [])
  | fuel + 1, cs =>
    match m cs with
    | some (p, r) =>
      let x := reSubF m repl emit fuel r
      (repl p ++ x.1, emit p ++ x.2)
    | none =>
      match cs with
      | [] => ([], [])
      | c :: t =>
        let x := reSubF m repl emit fuel t
        (c :: x.1, x.2)

/-! ## Markup cleaning (`clean_markdown_content`)

The Python code removes `<br\s*/?>` (case-insensitive) and then the
markdown style attributes `\{:\s*style="[^"]*"\s*\}`.  No other markers are
touched: in particular the Jinja raw/endraw markers survive unchanged. -/

/-- Anchored matcher for `<br\s*/?>` (case-insensitive). -/
def matchBrTag (cs : List Char) : Option (List Char × List Char) :=
  match cs with
  | '<' :: c1 :: c2 :: t =>
    if (c1 = 'b' ∨ c1 = 'B') ∧ (c2 = 'r' ∨ c2 = 'R') then
      let u := t.drop (wsCount t)
      match u with
      | '/' :: '>' :: r => some ([], r)
      | '>' :: r => some ([], r)
      | _ => none
    else none
  | _ => none

/-- Anchored matcher for the style-attribute pattern
`\{:\s*style="[^"]*"\s*\}`. -/
def matchStyleAttr (cs : List Char) : Option (List Char × List Char) :=
  match cs with
  | b :: ':' :: t =>
    if b = lbrace then
      let u := t.drop (wsCount t)
      if u.take 7 = str "style=\"" then
        let v := u.drop 7
        let n := (v.takeWhile (fun c => ¬ c = dquote)).length
        if v.get? n = some dquote then
          let w := v.drop (n + 1)
          let w2 := w.drop (wsCount w)
          match w2 with
          | c :: r => if c = rbrace then some ([], r) else none
          | [] => none
        else none
      else none
    else none
  | _ => none

/-- Embedding of `clean_markdown_content`: delete break tags, then delete
style attributes. -/
def clean_markdown_content (s : List Char) : List Char :=
  let s1 := (reSubF matchBrTag (fun _ => []) (fun _ => []) (s.length + 1) s).1
  (reSubF matchStyleAttr (fun _ => []) (fun _ => []) (s1.length + 1) s1).1

/-! ## Include rewriting (`replace_yaml_includes`)

Three global substitutions are applied in order: a fenced yaml block wrapping
a Jinja include, a bare Jinja include, and the MkDocs snippet marker.  Every
match is replaced by the Hugo readfile shortcode for the captured path; when
the path does not exist under the snippet destination folder, a record is
appended to the missing-snippet list.  The filesystem test
`os.path.exists(os.path.join(snippet_dest_folder, path))` is abstracted as a
boolean predicate `ex` on the captured path. -/

/-- Consume an exact literal. -/
def eatLit (lit cs : List Char) : Option (List Char) :=
  if cs.take lit.length = lit then some (cs.drop lit.length) else none

/-- Consume a greedy `\s*` followed by a literal whose first character is not
whitespace: the whole maximal run must be consumed. -/
def eatWsThen (lit cs : List Char) : Option (List Char) :=
  eatLit lit (cs.drop (wsCount cs))

/-- Consume a greedy `\s+` (at least one whitespace character) followed
immediately by a non-whitespace pattern character: the whole maximal run is
consumed. -/
def eatWs1 (cs : List Char) : Option (List Char) :=
  if wsCount cs = 0 then none else some (cs.drop (wsCount cs))

/-- Consume `\s*\n\s*` followed by a non-whitespace pattern character: the
whole maximal whitespace run is consumed and must contain a newline. -/
def eatWsNl (cs : List Char) : Option (List Char) :=
  if wsRunHasNl cs then some (cs.drop (wsCount cs)) else none

/-- Consume one quote character, single or double (the class `["\']`). -/
def eatQuoteAny (cs : List Char) : Option (List Char) :=
  match cs with
  | c :: t => if c = dquote ∨ c = squote then some t else none
  | [] => none

/-- Capture `[^"\']+` greedily, then consume the closing quote (either
kind): the maximal run of non-quote characters, which must be nonempty and
be followed by a quote character. -/
def grabToQuote (cs : List Char) : Option (List Char × List Char) :=
  let n := (cs.takeWhile (fun c => ¬ (c = dquote ∨ c = squote))).length
  if n = 0 then none
  else match cs.get? n with
    | some c => if c = dquote ∨ c = squote then some (cs.take n, cs.drop (n + 1)) else none
    | none => none

/-- Capture `[^"]+` greedily, then consume the closing double quote. -/
def grabToDq (cs : List Char) : Option (List Char × List Char) :=
  let n := (cs.takeWhile (fun c => ¬ c = dquote)).length
  if n = 0 then none
  else match cs.get? n with
    | some c => if c = dquote then some (cs.take n, cs.drop (n + 1)) else none
    | none => none

/-- Consume `[^\n]*\n`: the maximal newline-free run, then a newline. -/
def eatToNl (cs : List Char) : Option (List Char) :=
  let n := (cs.takeWhile (fun c => ¬ c = '\n')).length
  if cs.get? n = some '\n' then some (cs.drop (n + 1)) else none

/-- Anchored matcher for pattern 1 of `replace_yaml_includes`, the fenced
block wrapping a Jinja include (note: the fence label `yaml` must follow the
backticks with no intervening space, exactly as in the source pattern). -/
def matchFencedInclude (cs : List Char) : Option (List Char × List Char) := do
  let a ← eatLit (str "```yaml") cs
  let b ← eatWsNl a
  let c ← eatLit [lbrace, '%'] b
  let d ← eatWsThen (str "include") c
  let e ← eatWs1 d
  let f ← eatQuoteAny e
  let (p, g) ← grabToQuote f
  let h ← eatWsThen ['%', rbrace] g
  let i ← eatToNl h
  let r ← eatWsThen (str "```") i
  pure (p, r)

/-- Anchored matcher for pattern 2, the bare Jinja include directive. -/
def matchBareInclude (cs : List Char) : Option (List Char × List Char) := do
  let a ← eatLit [lbrace, '%'] cs
  let b ← eatWsThen (str "include") a
  let c ← eatWs1 b
  let d ← eatQuoteAny c
  let (p, e) ← grabToQuote d
  let r ← eatWsThen ['%', rbrace] e
  pure (p, r)

/-- Anchored matcher for pattern 3, the MkDocs snippet marker. -/
def matchSnippetMarker (cs : List Char) : Option (List Char × List Char) := do
  let a ← eatLit (str "--8<--") cs
  let b ← eatWs1 a
  let c ← eatLit [dquote] b
  let (p, r) ← grabToDq c
  pure (p, r)

/-- The Hugo readfile shortcode the replacement callback produces for a
captured snippet path. -/
def readfileFor (p : List Char) : List Char :=
  str "\x7b\x7b< readfile file=/snippets/" ++ p ++ str " code=\"true\" lang=\"yaml\" >\x7d\x7d"

/-- Missing-snippet record emission of the replacement callback: one record
per match whose path fails the existence test. -/
def emitMissing (ex : List Char → Bool) (md : List Char) (p : List Char) : List SnipRef :=
  if ex p then [] else [⟨p, md⟩]

/-- One global substitution pass for one of the three include patterns. -/
def passSub (m : List Char → Option (List Char × List Char))
    (ex : List Char → Bool) (md : List Char) (cs : List Char) :
    List Char × List SnipRef :=
  reSubF m readfileFor (emitMissing ex md) (cs.length + 1) cs

/-- Embedding of `replace_yaml_includes`: the three passes in source order;
the missing-snippet list accumulates the records of the three passes in
order.  Returns (rewritten content, appended missing records). -/
def replace_yaml_includes (content : List Char) (ex : List Char → Bool)
    (md : List Char) : List Char × List SnipRef :=
  let r1 := passSub matchFencedInclude ex md content
  let r2 := passSub matchBareInclude ex md r1.1
  let r3 := passSub matchSnippetMarker ex md r2.1
  (r3.1, r1.2 ++ r2.2 ++ r3.2)

/-- Capture list of one pass: the paths of all matches of `m`, in leftmost
match order. -/
def passPaths (m : List Char → Option (List Char × List Char))
    (cs : List Char) : List (List Char) :=
  (reSubF m readfileFor (fun p => [⟨p, []⟩]) (cs.length + 1) cs).2.map SnipRef.snippet

/-- All include paths matched across the three passes of
`replace_yaml_includes`, in the order the replacement callback visits them. -/
def includeMatchPaths (content : List Char) : List (List Char) :=
  let o1 := (passSub matchFencedInclude (fun _ => true) [] content).1
  let o2 := (passSub matchBareInclude (fun _ => true) [] o1).1
  passPaths matchFencedInclude content ++ passPaths matchBareInclude o1 ++
    passPaths matchSnippetMarker o2

/-! ## Asset resolution (`find_asset_in_folder`)

`Path.rglob` walking the asset root is abstracted as the list of directory
entries in traversal order; each entry carries its path relative to the root
and whether it is a regular file.  For a fixed (unchanged) tree this list is
fixed, which is exactly the determinism assumption of the spec. -/

structure FsEntry where
  relPath : List Char
  isFile : Bool
  deriving DecidableEq, Repr

/-- Hex digit value, as understood by URL decoding. -/
def hexVal (c : Char) : Option Nat :=
  if '0' ≤ c ∧ c ≤ '9' then some (c.toNat - '0'.toNat)
  else if 'a' ≤ c ∧ c ≤ 'f' then some (c.toNat - 'a'.toNat + 10)
  else if 'A' ≤ c ∧ c ≤ 'F' then some (c.toNat - 'A'.toNat + 10)
  else none

/-- ASCII model of `urllib.parse.unquote`: decode percent-escapes, leaving
malformed escapes untouched. -/
def unquote : List Char → List Char
  | [] => []
  | '%' :: a :: b :: t =>
    match hexVal a, hexVal b with
    | some x, some y => Char.ofNat (16 * x + y) :: unquote t
    | _, _ => '%' :: unquote (a :: b :: t)
  | c :: t => c :: unquote t

/-- Base name of a slash-separated relative path (`Path.name`). -/
def baseNameL (p : List Char) : List Char :=
  ((p.reverse).takeWhile (fun c => ¬ c = '/')).reverse

/-- Replace literal spaces by `%20` (the only escaping the code performs). -/
def encodeSpaces (p : List Char) : List Char :=
  p.flatMap (fun c => if c = ' ' then str "%20" else [c])

/-- Loop of `find_asset_in_folder` over the traversal list. -/
def findAssetGo (asset decoded : List Char) : List FsEntry → Option (List Char)
  | [] => none
  | e :: rest =>
    if e.isFile ∧ (baseNameL e.relPath = asset ∨ baseNameL e.relPath = decoded) then
      some ('/' :: encodeSpaces e.relPath)
    else findAssetGo asset decoded rest

/-- Embedding of `find_asset_in_folder`: walk the entries in traversal
order and return, for the first regular file whose base name equals the
asset filename verbatim or URL-decoded, the slash-prefixed space-encoded
relative path. -/
def find_asset_in_folder (asset : List Char) (tree : List FsEntry) : Option (List Char) :=
  findAssetGo asset (unquote asset) tree

/-! ## Navigation parsing (`parse_mkdocs_nav`)

The parser walks the lines following the `nav:` key.  A non-blank line with
no leading whitespace terminates the walk; blank and comment lines are
skipped; a line is then dispatched on its indentation band (2 spaces for
sections, 6 to 8 for items, 10 to 12 for sub-items).  Three line shapes are
recognized by `re.match` against the stripped line: a heading
`- Name:` with nothing after the colon, an inline leaf `- Name: path.md`,
and (at levels 2 and 3) a quoted bare path `- "path.md"`.  The existence
check `os.path.exists(os.path.join(source_dir, filepath))` is abstracted as
a boolean predicate `fs` on filepath.  The two variables
`current_section_dir` and `current_subsection_dir` of the source are
assigned but never read, and are omitted from the state. -/

/-- Per-file metadata recorded by the parser (the `section` and `subsection`
field names of the source are keywords in Lean and are shortened). -/
structure FileMeta where
  title : List Char
  sect : Option (List Char)
  subsect : Option (List Char)
  weight : Nat
  deriving DecidableEq, Repr

/-- Per-directory metadata recorded by the parser. -/
structure SecMeta where
  title : Option (List Char)
  weight : Nat
  deriving DecidableEq, Repr

/-- Ghost trace of weight assignments, recorded in document order: one
`sec` event for every level-1 line (each advances the section counter and
reseeds the item counter), and one `leaf` event for every write to
FileMetadata. -/
inductive NavEvent where
  | sec (w : Nat)
  | leaf (w : Nat)
  deriving DecidableEq, Repr

/-- Parser state.  The `trace` field is a ghost record of assignments and
does not influence the computed metadata. -/
structure NavState where
  curSection : Option (List Char)
  curSubsection : Option (List Char)
  sectionWeight : Nat
  subsectionWeight : Nat
  itemWeight : Nat
  fileMetadata : List (List Char × FileMeta)
  sectionMetadata : List (List Char × SecMeta)
  trace : List NavEvent
  deriving Repr

/-- Initial parser state. -/
def initNavState : NavState :=
  ⟨none, none, 0, 0, 0, [], [], []⟩

/-- Python dict assignment on an insertion-ordered association list:
overwrite in place when the key is present, else append. -/
def dictInsert : List (List Char × FileMeta) → List Char → FileMeta →
    List (List Char × FileMeta)
  | [], k, v => [(k, v)]
  | (k0, v0) :: r, k, v =>
    if k0 = k then (k, v) :: r else (k0, v0) :: dictInsert r k v

/-- Python `key in dict` on an association list. -/
def keyMem (l : List (List Char × SecMeta)) (k : List Char) : Bool :=
  l.any (fun e => e.1 = k)

/-- Python truthiness fallback `a if a else b` on optional strings (an
absent or empty string falls back). -/
def pyOr (a b : Option (List Char)) : Option (List Char) :=
  match a with
  | some s => if s = [] then b else some s
  | none => b

/-- Directory part of a slash-separated relative path (`os.path.dirname`
restricted to the relative paths the converter handles). -/
def dirnameL (p : List Char) : List Char :=
  if p.contains '/' then ((p.reverse).dropWhile (fun c => ¬ c = '/')).drop 1 |>.reverse
  else []

/-- Python `str.title()`: letters starting a letter-run are uppercased, the
rest lowercased. -/
def pyTitleGo (prevAlpha : Bool) : List Char → List Char
  | [] => []
  | c :: t =>
    if c.isAlpha then
      (if prevAlpha then c.toLower else c.toUpper) :: pyTitleGo true t
    else c :: pyTitleGo false t

/-- Python `str.title()`. -/
def pyTitle (l : List Char) : List Char := pyTitleGo false l

/-- Python `os.path.splitext(b)[0]`: cut at the last dot, except that the
leading dots of the name never count as an extension separator. -/
def stemL (b : List Char) : List Char :=
  let lead := (b.takeWhile (fun c => c = '.')).length
  match (List.range b.length).foldl
      (fun acc i => if max lead 1 ≤ i ∧ b.get? i = some '.' then some i else acc)
      none with
  | some i => b.take i
  | none => b

/-- Title derived from a quoted bare path:
`os.path.splitext(os.path.basename(fp))[0].replace('-', ' ').title()`. -/
def titleFromPath (fp : List Char) : List Char :=
  pyTitle ((stemL (baseNameL fp)).map (fun c => if c = '-' then ' ' else c))

/-- Anchored match of the heading pattern (`- Name:` with only whitespace
after the colon); returns the captured name.  The outer loop hands back the
greedy `\s+` run latest-first; the inner loop advances the lazy `(.+?)`
shortest-first. -/
def matchHeaderLine (s : List Char) : Option (List Char) :=
  match s with
  | c :: rest =>
    if c = '-' then
      (descList (wsCount rest)).findSome? (fun w =>
        let r := rest.drop w
        (List.range r.length).findSome? (fun i =>
          if 1 ≤ i ∧ r.get? i = some ':' ∧ (r.drop (i + 1)).all isPyWs then
            some (r.take i)
          else none))
    else none
  | [] => none

/-- Anchored match of the inline leaf pattern (`- Name: path` where the path
part contains `.md`); returns (captured title, captured filepath).  The
filepath capture `(.+\.md)` is cut by the greedy `.+` at the last `.md`
occurrence, and the greedy `\s+` after the colon keeps as much whitespace as
the nonempty `.+` allows. -/
def matchLeafLine (s : List Char) : Option (List Char × List Char) :=
  match s with
  | c :: rest =>
    if c = '-' then
      (descList (wsCount rest)).findSome? (fun w =>
        let r := rest.drop w
        (List.range r.length).findSome? (fun i =>
          if 1 ≤ i ∧ r.get? i = some ':' then
            let u := r.drop (i + 1)
            let w2 := wsCount u
            if 1 ≤ w2 then
              match lastMdIdx u with
              | some L =>
                if 2 ≤ L then some (r.take i, (u.take (L + 3)).drop (min w2 (L - 1)))
                else none
              | none => none
            else none
          else none))
    else none
  | [] => none

/-- Anchored match of the quoted bare-path pattern (`- "path.md"`); returns
the captured filepath. -/
def matchQuotedLine (s : List Char) : Option (List Char) :=
  match s with
  | c :: rest =>
    if c = '-' then
      let m := wsCount rest
      if 1 ≤ m ∧ rest.get? m = some dquote then
        (lastMdDqIdx (rest.drop (m + 1))).map (fun L => (rest.drop (m + 1)).take (L + 3))
      else none
    else none
  | [] => none

/-- Level-1 line handling (indent exactly 2, starts with a dash): advance
the section counter, reseed the item counter, reset the subsection counter,
then record a heading or an inline leaf. -/
def navLevel1 (fs : List Char → Bool) (st : NavState) (stripped : List Char) : NavState :=
  let sw := st.sectionWeight + 10
  match matchHeaderLine stripped with
  | some name =>
    { st with curSection := some name, curSubsection := none,
              sectionWeight := sw, itemWeight := sw, subsectionWeight := 0,
              trace := st.trace ++ [.sec sw] }
  | none =>
    match matchLeafLine stripped with
    | some (title, filepath) =>
      let dir := dirnameL filepath
      let sm :=
        if ¬ dir = [] ∧ ¬ keyMem st.sectionMetadata dir then
          st.sectionMetadata ++ [(dir, ⟨some title, sw⟩)]
        else st.sectionMetadata
      let fm :=
        if fs filepath then
          dictInsert st.fileMetadata filepath ⟨title, some title, none, sw⟩
        else st.fileMetadata
      { st with curSection := some title, curSubsection := none,
                sectionWeight := sw, itemWeight := sw, subsectionWeight := 0,
                fileMetadata := fm, sectionMetadata := sm,
                trace := st.trace ++ [.sec sw] ++
                  (if fs filepath then [.leaf sw] else []) }
    | none =>
      { st with sectionWeight := sw, itemWeight := sw, subsectionWeight := 0,
                trace := st.trace ++ [.sec sw] }

/-- Level-2 line handling (indent 6 to 8): advance the item counter, then
record a subsection heading or a leaf (named or quoted form). -/
def navLevel2 (fs : List Char → Bool) (st : NavState) (stripped : List Char) : NavState :=
  let iw := st.itemWeight + 10
  match matchHeaderLine stripped with
  | some name =>
    { st with curSubsection := some name, subsectionWeight := iw, itemWeight := iw }
  | none =>
    let tf : Option (List Char × List Char) :=
      match matchLeafLine stripped with
      | some tp => some tp
      | none => (matchQuotedLine stripped).map (fun fp => (titleFromPath fp, fp))
    match tf with
    | some (title, filepath) =>
      let dir := dirnameL filepath
      let sm :=
        if ¬ dir = [] ∧ ¬ keyMem st.sectionMetadata dir then
          st.sectionMetadata ++ [(dir, ⟨pyOr st.curSubsection st.curSection, st.sectionWeight⟩)]
        else st.sectionMetadata
      let fm :=
        if fs filepath then
          dictInsert st.fileMetadata filepath ⟨title, st.curSection, st.curSubsection, iw⟩
        else st.fileMetadata
      { st with itemWeight := iw, fileMetadata := fm, sectionMetadata := sm,
                trace := st.trace ++ (if fs filepath then [.leaf iw] else []) }
    | none => { st with itemWeight := iw }

/-- Level-3 line handling (indent 10 to 12): advance the item counter, then
record a leaf (named or quoted form); a nested directory whose parent is
already known gets subsection metadata. -/
def navLevel3 (fs : List Char → Bool) (st : NavState) (stripped : List Char) : NavState :=
  let iw := st.itemWeight + 10
  let tf : Option (List Char × List Char) :=
    match matchLeafLine stripped with
    | some tp => some tp
    | none => (matchQuotedLine stripped).map (fun fp => (titleFromPath fp, fp))
  match tf with
  | some (title, filepath) =>
    let dir := dirnameL filepath
    let sm :=
      if ¬ dir = [] ∧ ¬ dirnameL dir = [] ∧ keyMem st.sectionMetadata (dirnameL dir) ∧
          ¬ keyMem st.sectionMetadata dir then
        st.sectionMetadata ++ [(dir, ⟨pyOr st.curSubsection (some title), st.subsectionWeight⟩)]
      else st.sectionMetadata
    let fm :=
      if fs filepath then
        dictInsert st.fileMetadata filepath ⟨title, st.curSection, st.curSubsection, iw⟩
      else st.fileMetadata
    { st with itemWeight := iw, fileMetadata := fm, sectionMetadata := sm,
              trace := st.trace ++ (if fs filepath then [.leaf iw] else []) }
  | none => { st with itemWeight := iw }

/-- True when the stripped line starts with a dash and a space. -/
def dashSpace (stripped : List Char) : Bool := stripped.take 2 = ['-', ' ']

/-- Process one line of the nav block (the loop body of `parse_mkdocs_nav`
after the termination test). -/
def navStepLine (fs : List Char → Bool) (st : NavState) (line : List Char) : NavState :=
  let stripped := pyStrip line
  if stripped = [] ∨ stripped.take 1 = ['#'] then st
  else
    let indent := line.length - (pyLstrip line).length
    if indent = 2 ∧ dashSpace stripped then navLevel1 fs st stripped
    else if 6 ≤ indent ∧ indent ≤ 8 ∧ dashSpace stripped then navLevel2 fs st stripped
    else if 10 ≤ indent ∧ indent ≤ 12 ∧ dashSpace stripped then navLevel3 fs st stripped
    else st

/-- True when the line terminates the nav block: nonempty with no leading
space or tab. -/
def navBreakLine (line : List Char) : Bool :=
  ¬ line = [] ∧ ¬ line.take 1 = [' '] ∧ ¬ line.take 1 = ['\t']

/-- Walk the nav-block lines, stopping at the first top-level line. -/
def navWalk (fs : List Char → Bool) : NavState → List (List Char) → NavState
  | st, [] => st
  | st, l :: ls => if navBreakLine l then st else navWalk fs (navStepLine fs st l) ls

/-- Embedding of `parse_mkdocs_nav`, starting from the lines that follow the
`nav:` key (locating the key in the config file, and the fatal error when it
is absent, happen before the portion modelled here). -/
def parse_mkdocs_nav (navLines : List (List Char)) (fs : List Char → Bool) : NavState :=
  navWalk fs initNavState navLines

/-! ## Unmatched file reconciliation (`main`, lines 575-602)

Documents discovered on disk but absent from the navigation are appended to
the metadata map in sorted path order, with weights starting at the maximum
nav-matched weight plus 1000 and advancing by 10 per file.  New keys are by
construction absent from the dict, so the Python dict assignments append in
insertion order. -/

/-- Python `max(list)` guarded by `if list else 0`, over naturals. -/
def pyMaxW (l : List Nat) : Nat := l.foldl max 0

/-- Python string comparison (lexicographic by code point) as a Bool. -/
def lexLe : List Char → List Char → Bool
  | [], _ => true
  | _ :: _, [] => false
  | a :: x, b :: y => if a = b then lexLe x y else decide (a.val < b.val)

/-- Insertion of one string into a sorted list. -/
def sortInsert (a : List Char) : List (List Char) → List (List Char)
  | [] => [a]
  | b :: r => if lexLe a b then a :: b :: r else b :: sortInsert a r

/-- Python `sorted` on a list of strings. -/
def sortStrs : List (List Char) → List (List Char)
  | [] => []
  | a :: r => sortInsert a (sortStrs r)

/-- Title synthesised for an unmatched file:
`os.path.splitext(filename)[0].replace('-', ' ').replace('_', ' ').title()`. -/
def unmatchedTitle (f : List Char) : List Char :=
  pyTitle ((stemL (baseNameL f)).map
    (fun c => if c = '-' then ' ' else if c = '_' then ' ' else c))

/-- Weight-assignment loop over the sorted unmatched files: the running
weight advances by 10 before each entry is written. -/
def goUnmatched (w : Nat) : List (List Char) → List (List Char × FileMeta)
  | [] => []
  | f :: r => (f, ⟨unmatchedTitle f, none, none, w + 10⟩) :: goUnmatched (w + 10) r

/-- The unmatched documents: the on-disk markdown set minus the nav-matched
keys, in sorted order (`sorted(all_md_files - matched_files)`). -/
def unmatchedSorted (fm : List (List Char × FileMeta)) (allMd : List (List Char)) :
    List (List Char) :=
  sortStrs ((allMd.eraseDups).filter (fun f => ¬ (fm.map Prod.fst).contains f))

/-- Embedding of the reconciliation step of `main`: extend the metadata map
with every unmatched document, starting 1000 above the maximum nav-matched
weight. -/
def addUnmatched (fm : List (List Char × FileMeta)) (allMd : List (List Char)) :
    List (List Char × FileMeta) :=
  fm ++ goUnmatched (pyMaxW (fm.map (fun e => e.2.weight)) + 1000) (unmatchedSorted fm allMd)

/-- The two-section nav example, at the indentation bands the parser
accepts (2 spaces for the section headings, 6 for the leaves). -/
def c1Lines : List (List Char) :=
  [str "  - Guide:", str "      - Intro: guide/intro.md",
   str "  - API:", str "      - Usage: api/usage.md"]

/-- Existence predicate under which both referenced files exist. -/
def c1Fs : List Char → Bool :=
  fun p => p = str "guide/intro.md" ∨ p = str "api/usage.md"

/-- Document carrying Jinja raw/endraw markers, including a
whitespace-control hyphen variant (the input of the `test_remove_raw_tags`
family of tests of the repository). -/
def c3Input : List Char :=
  str "\x7b% raw %\x7d\napiVersion: v1\nkind: Secret\n\x7b%- endraw %\x7d\n"

/-- Document opening with two stacked YAML front-matter blocks. -/
def c4Input : List Char := str "---\nA\n---\n---\nB\n---\nrest"

/-- Fence whose label is separated from the backticks by one space, wrapping
one Jinja include (the input of `test_jinja_include_with_space_in_yaml_block`,
with the double-quote form of the path). -/
def c5Input : List Char :=
  str "``` yaml\n\x7b% include \"test.yaml\" %\x7d\n```"

/-- Existence predicate under which `test.yaml` exists. -/
def c5Ex : List Char → Bool := fun p => p = str "test.yaml"

/-- Matching condition in the words of the spec: a regular file whose base
name equals the input filename verbatim or its URL-decoded form. -/
def specAssetMatch (asset : List Char) (e : FsEntry) : Bool :=
  e.isFile && (baseNameL e.relPath == asset || baseNameL e.relPath == unquote asset)

/-- Base weight for unmatched documents: the maximum nav-matched weight plus
the fixed offset 1000. -/
def unmatchedBase (fm : List (List Char × FileMeta)) : Nat :=
  pyMaxW (fm.map (fun e => e.2.weight)) + 1000

/-- The entries appended for the unmatched documents. -/
def unmatchedEntries (fm : List (List Char × FileMeta)) (allMd : List (List Char)) :
    List (List Char × FileMeta) :=
  goUnmatched (unmatchedBase fm) (unmatchedSorted fm allMd)

/-- Nav block for the C8 witness: one inline section leaf whose file
exists, one whose file does not. -/
def c8Lines : List (List Char) :=
  [str "  - Docs: docs/a.md", str "  - Lost: docs/b.md"]

/-- Existence predicate for the C8 witness. -/
def c8Fs : List Char → Bool := fun p => p = str "docs/a.md"

/-- True when the text contains an occurrence of `.md` anywhere. -/
def hasMd (l : List Char) : Bool := (List.range l.length).any (fun i => isMdAt l i)

/-- Nav line whose path text merely contains `.md` without ending in it. -/
def c10Lines : List (List Char) := [str "  - Foo: guide/x.md.bak"]

/-- Weights of the `sec` events, in document order. -/
def secWeights : List NavEvent → List Nat
  | [] => []
  | NavEvent.sec w :: r => w :: secWeights r
  | NavEvent.leaf _ :: r => secWeights r

/-- The arithmetic sequence `[10, 20, ..., 10 * k]`. -/
def tenSeq (k : Nat) : List Nat := (List.range k).map (fun i => 10 * (i + 1))

/-- Weight of the latest `leaf` event not followed by a `sec` event, the
accumulator seeded with `a`. -/
def lastOpen : Option Nat → List NavEvent → Option Nat
  | a, [] => a
  | _, NavEvent.sec _ :: r => lastOpen none r
  | _, NavEvent.leaf w :: r => lastOpen (some w) r

/-- Leaf weights strictly increase between consecutive `leaf` events not
separated by a `sec` event, the lower bound seeded with `a`. -/
def leafOkFrom : Option Nat → List NavEvent → Prop
  | _, [] => True
  | _, NavEvent.sec _ :: r => leafOkFrom none r
  | a, NavEvent.leaf w :: r => (∀ l ∈ a, l < w) ∧ leafOkFrom (some w) r

/-- Leaf weights strictly increase along every stretch of the trace that
contains no `sec` event. -/
def LeafIncreasing (tr : List NavEvent) : Prop := leafOkFrom none tr

/-- Invariant carried through the parser walk: the section counter is the
last entry of the arithmetic section-weight sequence, leaf ordering holds,
and the open leaf never exceeds the item counter. -/
def NavInv (st : NavState) : Prop :=
  (∃ k, st.sectionWeight = 10 * k ∧ secWeights st.trace = tenSeq k) ∧
  LeafIncreasing st.trace ∧
  (∀ l ∈ lastOpen none st.trace, l ≤ st.itemWeight)

/-- Nav block with a malformed level-1 line between two sections: the line
advances both counters but leaves the current section unchanged. -/
def c2Lines : List (List Char) :=
  [str "  - A:", str "      - X: a/x.md", str "      - Y: a/y.md",
   str "  - ?", str "      - Z: a/z.md"]

/-! # Theorems -/

/-! ## C1: the worked nav example -/

/-- C1, counterexample.  On the worked example (both files existing), the
claim asserts leaf weights 10 and 20 and SectionMetadata entry
`api → (API, 10)`.  The code seeds the item counter from the section counter
and advances it before the first leaf, so the leaves get 20 and 30 and the
`api` directory gets weight 20: the claimed conjunction is false. -/
theorem c1_counterexample :
    ¬ (((parse_mkdocs_nav c1Lines c1Fs).fileMetadata.lookup (str "guide/intro.md")).map
          FileMeta.weight = some 10 ∧
       ((parse_mkdocs_nav c1Lines c1Fs).fileMetadata.lookup (str "api/usage.md")).map
          FileMeta.weight = some 20 ∧
       ((parse_mkdocs_nav c1Lines c1Fs).sectionMetadata.lookup (str "api")).map
          SecMeta.weight = some 10) := by
  decide

/-- C1, amended.  Parsing the example yields section weights 10 and 20,
leaf weights 20 and 30, and SectionMetadata `guide → (Guide, 10)`,
`api → (API, 20)`. -/
theorem c1_amended :
    (parse_mkdocs_nav c1Lines c1Fs).fileMetadata =
      [(str "guide/intro.md", ⟨str "Intro", some (str "Guide"), none, 20⟩),
       (str "api/usage.md", ⟨str "Usage", some (str "API"), none, 30⟩)] ∧
    (parse_mkdocs_nav c1Lines c1Fs).sectionMetadata =
      [(str "guide", ⟨some (str "Guide"), 10⟩), (str "api", ⟨some (str "API"), 20⟩)] ∧
    (parse_mkdocs_nav c1Lines c1Fs).trace =
      [.sec 10, .leaf 20, .sec 20, .leaf 30] := by
  decide

/-! ## C3: raw/endraw markers and `clean_markdown_content` -/

/-- C3, code behaviour at the failing input.  The clean-markup step only
deletes break tags and style attributes; it leaves the raw/endraw markers in
place (the document is returned unchanged), contradicting the claim and the
tests `test_remove_raw_tags`, `test_remove_endraw_tags`,
`test_remove_raw_tags_with_hyphens` of the repository. -/
theorem c3_raw_markers_kept :
    clean_markdown_content c3Input = c3Input ∧
    (clean_markdown_content c3Input).take 9 = str "\x7b% raw %\x7d" := by
  decide

/-! ## C4: front-matter stripping is not idempotent -/

/-- C4, counterexample.  Each application of the strip step removes one
leading YAML-delimited block, so on a document opening with two stacked
blocks the second application removes a second block: the step is not
idempotent. -/
theorem c4_counterexample :
    ¬ strip_existing_front_matter (strip_existing_front_matter c4Input) =
      strip_existing_front_matter c4Input := by
  decide

/-- Helper: the block remover is the identity on text that does not open
with the triple delimiter. -/
theorem fmRemove_noop (d : Char) (s : List Char) (h : ¬ s.take 3 = [d, d, d]) :
    fmRemove d s = s := by
  unfold fmRemove
  rw [if_neg h]

/-- Helper: a successful `findSome?` comes from some member of the list. -/
theorem findSome?_mem {α β : Type} (f : α → Option β) (l : List α) (b : β)
    (h : l.findSome? f = some b) : ∃ a ∈ l, f a = some b := by
  induction l with
  | nil => cases h
  | cons x r ih =>
    rw [List.findSome?_cons] at h
    cases hx : f x with
    | some y =>
      rw [hx] at h
      exact ⟨x, List.mem_cons_self x r, by rw [hx]; exact h⟩
    | none =>
      rw [hx] at h
      obtain ⟨a, ha, hfa⟩ := ih h
      exact ⟨a, List.mem_cons_of_mem x ha, hfa⟩

/-- Helper: structure of one front-matter substitution: it either leaves
the text unchanged, or — only when the text opens with the triple
delimiter — deletes one leading segment of at least 8 characters, keeping a
suffix of the input intact. -/
theorem fmRemove_structure (d : Char) (s : List Char) :
    fmRemove d s = s ∨
    (s.take 3 = [d, d, d] ∧ ∃ n, 8 ≤ n ∧ fmRemove d s = s.drop n) := by
  unfold fmRemove
  split
  · rename_i htake
    simp only []
    split
    · rename_i rest hrest
      obtain ⟨k, _, hk⟩ := findSome?_mem _ _ _ hrest
      cases hq : findClose d (s.drop 3) (k + 1) with
      | none =>
        rw [hq] at hk
        cases hk
      | some q =>
        rw [hq] at hk
        simp only [Option.some_bind] at hk
        cases hh : (nlIdxsDesc ((s.drop 3).drop (q + 4))
            (wsCount ((s.drop 3).drop (q + 4)))).head? with
        | none =>
          rw [hh] at hk
          cases hk
        | some k2 =>
          rw [hh] at hk
          simp only [Option.map_some'] at hk
          cases hk
          right
          refine ⟨htake, k2 + 1 + (q + 4) + 3, by omega, ?_⟩
          rw [List.drop_drop, List.drop_drop]
          congr 1
          omega
    · left
      rfl
  · left
    rfl

/-- C4, amended.  The strip step is not idempotent in general: a second
application can remove a further stacked leading block, as the
counterexample shows.  What does hold: each application performs the `---`
substitution and then the `+++` substitution, each of which deletes at most
one leading segment (of at least 8 characters, and only when the text opens
with that triple delimiter) and nothing elsewhere; and the second
application is a no-op whenever the once-stripped document does not open
with either triple delimiter. -/
theorem c4_amended :
    (∀ s : List Char,
        ¬ (strip_existing_front_matter s).take 3 = ['-', '-', '-'] →
        ¬ (strip_existing_front_matter s).take 3 = ['+', '+', '+'] →
        strip_existing_front_matter (strip_existing_front_matter s) =
          strip_existing_front_matter s) ∧
    (∀ (d : Char) (s : List Char),
        fmRemove d s = s ∨
        (s.take 3 = [d, d, d] ∧ ∃ n, 8 ≤ n ∧ fmRemove d s = s.drop n)) := by
  constructor
  · intro s hy ht
    have h1 := fmRemove_noop '-' (strip_existing_front_matter s) hy
    have h2 := fmRemove_noop '+' (strip_existing_front_matter s) ht
    calc strip_existing_front_matter (strip_existing_front_matter s)
        = fmRemove '+' (fmRemove '-' (strip_existing_front_matter s)) := rfl
      _ = fmRemove '+' (strip_existing_front_matter s) := by rw [h1]
      _ = strip_existing_front_matter s := h2
  · intro d s
    exact fmRemove_structure d s

/-- C4, witness: a document with a single front-matter block satisfies the
hypotheses of the idempotence clause, and the structural clause holds at a
concrete stacked-block document. -/
theorem c4_amended_witness :
    ((¬ (strip_existing_front_matter (str "---\ntitle: T\n---\nBody")).take 3 =
        ['-', '-', '-']) ∧
     (¬ (strip_existing_front_matter (str "---\ntitle: T\n---\nBody")).take 3 =
        ['+', '+', '+']) ∧
     strip_existing_front_matter
        (strip_existing_front_matter (str "---\ntitle: T\n---\nBody")) =
      strip_existing_front_matter (str "---\ntitle: T\n---\nBody")) ∧
    (fmRemove '-' (str "---\nA\n---\nrest") = str "---\nA\n---\nrest" ∨
     ((str "---\nA\n---\nrest").take 3 = ['-', '-', '-'] ∧
      ∃ n, 8 ≤ n ∧ fmRemove '-' (str "---\nA\n---\nrest") =
        (str "---\nA\n---\nrest").drop n)) :=
  ⟨⟨by decide, by decide,
    c4_amended.1 (str "---\ntitle: T\n---\nBody") (by decide) (by decide)⟩,
   c4_amended.2 '-' (str "---\nA\n---\nrest")⟩

/-! ## C5: fenced include with a space before the label -/

/-- C5, code behaviour at the failing input.  The fenced-block pattern
requires the label `yaml` to follow the backticks immediately, so on a
fence written with one space before the label only the inner include is
rewritten and both fence markers survive in the output — contradicting the
claim and the test `test_jinja_include_with_space_in_yaml_block` of the
repository, which expects the whole fence to collapse to the directive. -/
theorem c5_fence_left_in_output :
    (replace_yaml_includes c5Input c5Ex (str "test.md")).1 =
      str "``` yaml\n" ++ readfileFor (str "test.yaml") ++ str "\n```" ∧
    (replace_yaml_includes c5Input c5Ex (str "test.md")).2 = [] := by
  decide

/-! ## C9: the asset resolver is first-match over the traversal order -/

/-- C9.  The resolver returns exactly the first entry of the traversal list
satisfying the spec condition (rendered as a slash-prefixed space-encoded
relative path), for every filename and every tree: in particular it is a
pure function of the traversal list, so two runs over the same unchanged
tree — duplicate base names included — return the same result. -/
theorem c9_first_match_deterministic (asset : List Char) (tree : List FsEntry) :
    find_asset_in_folder asset tree =
      (tree.find? (specAssetMatch asset)).map (fun e => '/' :: encodeSpaces e.relPath) := by
  unfold find_asset_in_folder
  induction tree with
  | nil => rfl
  | cons e rest ih =>
    by_cases h : e.isFile = true ∧
        (baseNameL e.relPath = asset ∨ baseNameL e.relPath = unquote asset)
    · have hp : specAssetMatch asset e = true := by
        simp only [specAssetMatch, Bool.and_eq_true, Bool.or_eq_true, beq_iff_eq]
        exact h
      rw [findAssetGo, if_pos h, List.find?_cons_of_pos _ hp, Option.map_some']
    · have hp : ¬ specAssetMatch asset e = true := by
        simp only [specAssetMatch, Bool.and_eq_true, Bool.or_eq_true, beq_iff_eq]
        exact h
      rw [findAssetGo, if_neg h, List.find?_cons_of_neg _ hp, ih]

/-! ## C6: weights of documents absent from the navigation -/

/-- Helper: a fold of `max` dominates its initial value. -/
theorem foldl_max_init_le (init : Nat) (l : List Nat) : init ≤ l.foldl max init := by
  induction l generalizing init with
  | nil => exact Nat.le_refl _
  | cons a t ih => exact Nat.le_trans (Nat.le_max_left init a) (ih (max init a))

/-- Helper: a fold of `max` dominates every member of the list. -/
theorem mem_le_foldl_max (x : Nat) (l : List Nat) : ∀ init, x ∈ l → x ≤ l.foldl max init := by
  induction l with
  | nil => intro init hx; cases hx
  | cons a t ih =>
    intro init hx
    rcases List.mem_cons.mp hx with rfl | hmem
    · exact Nat.le_trans (Nat.le_max_right init x) (foldl_max_init_le _ t)
    · exact ih (max init a) hmem

/-- Helper: the weight written at position `i` of the assignment loop. -/
theorem goUnmatched_get (files : List (List Char)) (w i : Nat)
    (h : i < (goUnmatched w files).length) :
    ((goUnmatched w files).get ⟨i, h⟩).2.weight = w + 10 * (i + 1) := by
  induction files generalizing w i with
  | nil => cases h
  | cons f r ih =>
    cases i with
    | zero => rfl
    | succ j =>
      have hj : j < (goUnmatched (w + 10) r).length := Nat.lt_of_succ_lt_succ h
      have := ih (w + 10) j hj
      simp only [goUnmatched, List.get_cons_succ] at *
      omega

/-- Helper: every weight the assignment loop writes exceeds the start. -/
theorem goUnmatched_mem_weight (files : List (List Char)) :
    ∀ (w : Nat) (e : List Char × FileMeta), e ∈ goUnmatched w files → w < e.2.weight := by
  induction files with
  | nil => intro w e he; cases he
  | cons f r ih =>
    intro w e he
    rcases List.mem_cons.mp he with rfl | hmem
    · show w < w + 10
      omega
    · exact Nat.lt_trans (show w < w + 10 by omega) (ih (w + 10) e hmem)

/-- Helper: the weights written by the assignment loop strictly increase
along the output list. -/
theorem goUnmatched_chain (files : List (List Char)) : ∀ w : Nat,
    List.Chain' (fun a b : List Char × FileMeta => a.2.weight < b.2.weight)
      (goUnmatched w files) := by
  induction files with
  | nil => intro w; exact List.chain'_nil
  | cons f r ih =>
    intro w
    cases r with
    | nil => exact List.chain'_singleton _
    | cons g s =>
      rw [goUnmatched, goUnmatched]
      refine List.chain'_cons.mpr ⟨?_, ?_⟩
      · show w + 10 < w + 10 + 10
        omega
      · have h := ih (w + 10)
        rw [goUnmatched] at h
        exact h

/-- C6.  Unmatched documents, taken in sorted path order, receive weights
`max + 1000 + 10`, `max + 1000 + 20`, ... : the document at position `i`
gets `max + 1000 + 10 * (i + 1)`; consequently every unmatched weight
exceeds every nav-matched weight, unmatched weights strictly increase in
sorted order, and the extended map is the nav map with these entries
appended. -/
theorem c6_unmatched_weights (fm : List (List Char × FileMeta))
    (allMd : List (List Char)) (i : Nat) (h : i < (unmatchedEntries fm allMd).length) :
    ((unmatchedEntries fm allMd).get ⟨i, h⟩).2.weight =
        pyMaxW (fm.map (fun e => e.2.weight)) + 1000 + 10 * (i + 1) ∧
    (∀ e ∈ unmatchedEntries fm allMd, ∀ x ∈ fm, x.2.weight < e.2.weight) ∧
    List.Chain' (fun a b : List Char × FileMeta => a.2.weight < b.2.weight)
      (unmatchedEntries fm allMd) ∧
    addUnmatched fm allMd = fm ++ unmatchedEntries fm allMd := by
  refine ⟨?_, ?_, goUnmatched_chain _ _, rfl⟩
  · have := goUnmatched_get (unmatchedSorted fm allMd) (unmatchedBase fm) i h
    simpa [unmatchedEntries, unmatchedBase] using this
  · intro e he x hx
    have h1 : x.2.weight ≤ pyMaxW (fm.map (fun e => e.2.weight)) := by
      exact mem_le_foldl_max _ _ 0 (List.mem_map_of_mem (fun e => e.2.weight) hx)
    have h2 : unmatchedBase fm < e.2.weight :=
      goUnmatched_mem_weight _ _ e he
    have h3 : x.2.weight < unmatchedBase fm := by
      unfold unmatchedBase pyMaxW at *
      omega
    exact Nat.lt_trans h3 h2

/-- C6, witness: with one nav-matched entry of weight 30 and two unmatched
documents, the first unmatched document gets weight 1040 and all the listed
consequences hold. -/
theorem c6_unmatched_weights_witness :
    (0 < (unmatchedEntries [(str "a.md", ⟨str "A", none, none, 30⟩)]
        [str "b.md", str "c.md", str "a.md"]).length) ∧
    (((unmatchedEntries [(str "a.md", ⟨str "A", none, none, 30⟩)]
        [str "b.md", str "c.md", str "a.md"]).get ⟨0, by decide⟩).2.weight =
      pyMaxW ([(str "a.md", (⟨str "A", none, none, 30⟩ : FileMeta))].map
        (fun e => e.2.weight)) + 1000 + 10 * (0 + 1) ∧
     (∀ e ∈ unmatchedEntries [(str "a.md", ⟨str "A", none, none, 30⟩)]
        [str "b.md", str "c.md", str "a.md"],
       ∀ x ∈ [(str "a.md", (⟨str "A", none, none, 30⟩ : FileMeta))],
         x.2.weight < e.2.weight) ∧
     List.Chain' (fun a b : List Char × FileMeta => a.2.weight < b.2.weight)
       (unmatchedEntries [(str "a.md", ⟨str "A", none, none, 30⟩)]
        [str "b.md", str "c.md", str "a.md"]) ∧
     addUnmatched [(str "a.md", ⟨str "A", none, none, 30⟩)]
        [str "b.md", str "c.md", str "a.md"] =
       [(str "a.md", ⟨str "A", none, none, 30⟩)] ++
         unmatchedEntries [(str "a.md", ⟨str "A", none, none, 30⟩)]
          [str "b.md", str "c.md", str "a.md"]) :=
  ⟨by decide,
   c6_unmatched_weights [(str "a.md", ⟨str "A", none, none, 30⟩)]
     [str "b.md", str "c.md", str "a.md"] 0 (by decide)⟩

/-! ## C7: missing include references are recorded and never block output -/

/-- Helper: the rewritten text produced by a substitution pass does not
depend on the record-emission callback (the replacement string is computed
unconditionally, before the existence test is consulted). -/
theorem reSubF_fst_emit (m : List Char → Option (List Char × List Char))
    (repl : List Char → List Char) (e1 e2 : List Char → List SnipRef) :
    ∀ (fuel : Nat) (cs : List Char),
      (reSubF m repl e1 fuel cs).1 = (reSubF m repl e2 fuel cs).1 := by
  intro fuel
  induction fuel with
  | zero => intro cs; rfl
  | succ n ih =>
    intro cs
    cases h : m cs with
    | some pr =>
      obtain ⟨p, r⟩ := pr
      simp only [reSubF, h, ih r]
    | none =>
      cases cs with
      | nil => simp only [reSubF, h]
      | cons c t => simp only [reSubF, h, ih t]

/-- Helper: the records a substitution pass emits under the existence test
`ex` are exactly the records of the unconditional pass, filtered to the
paths failing `ex` and tagged with the referencing document. -/
theorem reSubF_snd_filter (m : List Char → Option (List Char × List Char))
    (repl : List Char → List Char) (ex : List Char → Bool) (md : List Char) :
    ∀ (fuel : Nat) (cs : List Char),
      (reSubF m repl (emitMissing ex md) fuel cs).2 =
        ((reSubF m repl (fun p => [⟨p, []⟩]) fuel cs).2).filterMap
          (fun r => if ex r.snippet then none else some ⟨r.snippet, md⟩) := by
  intro fuel
  induction fuel with
  | zero => intro cs; rfl
  | succ n ih =>
    intro cs
    cases h : m cs with
    | some pr =>
      obtain ⟨p, r⟩ := pr
      simp only [reSubF, h, List.filterMap_append, ih r, emitMissing]
      by_cases hex : ex p = true
      · simp [hex]
      · simp [hex]
    | none =>
      cases cs with
      | nil => simp only [reSubF, h, List.filterMap_nil]
      | cons c t => simp only [reSubF, h, ih t]

/-- Helper: filtering the path list and rebuilding records coincides with
filter-mapping the records directly. -/
theorem paths_filter_map (ex : List Char → Bool) (md : List Char) :
    ∀ L : List SnipRef,
      ((L.map SnipRef.snippet).filter (fun p => ! ex p)).map (fun p => (⟨p, md⟩ : SnipRef)) =
        L.filterMap (fun r => if ex r.snippet then none else some ⟨r.snippet, md⟩) := by
  intro L
  induction L with
  | nil => rfl
  | cons r t ih =>
    by_cases hex : ex r.snippet = true
    · simp [List.filter_cons, List.filterMap_cons, hex, ih]
    · have hex2 : ex r.snippet = false := by
        cases hval : ex r.snippet
        · rfl
        · exact absurd hval hex
      simp [List.filter_cons, List.filterMap_cons, hex2, ih]

/-- Helper: one pass is output-invariant in the existence test and the
document name (the emission callback never influences the rewritten text). -/
theorem passSub_fst (m : List Char → Option (List Char × List Char))
    (ex1 ex2 : List Char → Bool) (md1 md2 : List Char) (cs : List Char) :
    (passSub m ex1 md1 cs).1 = (passSub m ex2 md2 cs).1 :=
  reSubF_fst_emit m readfileFor (emitMissing ex1 md1)
    (emitMissing ex2 md2) (cs.length + 1) cs

/-- Helper: one pass records exactly the matched paths failing the
existence test, in match order, tagged with the referencing document. -/
theorem passSub_snd (m : List Char → Option (List Char × List Char))
    (ex : List Char → Bool) (md : List Char) (cs : List Char) :
    (passSub m ex md cs).2 =
      ((passPaths m cs).filter (fun p => ! ex p)).map (fun p => (⟨p, md⟩ : SnipRef)) := by
  rw [passSub, reSubF_snd_filter, passPaths, paths_filter_map]

/-- C7.  For every document, existence test and referencing document name:
the rewritten output is identical to the output when every path exists
(missing-reference detection never blocks or alters the substitution), and
the missing-reference list appended is exactly one record per match
occurrence whose captured path fails the existence test, in match order,
each tagged with the referencing document.  On the worked example, a bare
include of `cfg.yaml` with the snippet root lacking it produces the
standardized directive for `cfg.yaml` plus this single record; embedded as
total functions, no exception can be raised. -/
theorem c7_missing_reference_tracking (content : List Char)
    (ex : List Char → Bool) (md : List Char) :
    (replace_yaml_includes content ex md).1 =
      (replace_yaml_includes content (fun _ => true) md).1 ∧
    (replace_yaml_includes content ex md).2 =
      ((includeMatchPaths content).filter (fun p => ! ex p)).map
        (fun p => (⟨p, md⟩ : SnipRef)) ∧
    replace_yaml_includes (str "\x7b% include \"cfg.yaml\" %\x7d")
        (fun _ => false) (str "doc.md") =
      (readfileFor (str "cfg.yaml"), [⟨str "cfg.yaml", str "doc.md"⟩]) := by
  have h1 : (passSub matchFencedInclude ex md content).1 =
      (passSub matchFencedInclude (fun _ => true) ([] : List Char) content).1 :=
    passSub_fst _ _ _ _ _ _
  have h2 : (passSub matchBareInclude ex md
        (passSub matchFencedInclude ex md content).1).1 =
      (passSub matchBareInclude (fun _ => true) ([] : List Char)
        (passSub matchFencedInclude (fun _ => true) ([] : List Char) content).1).1 := by
    rw [h1]
    exact passSub_fst _ _ _ _ _ _
  have g1 : (passSub matchFencedInclude (fun _ => true) md content).1 =
      (passSub matchFencedInclude (fun _ => true) ([] : List Char) content).1 :=
    passSub_fst _ _ _ _ _ _
  have g2 : (passSub matchBareInclude (fun _ => true) md
        (passSub matchFencedInclude (fun _ => true) md content).1).1 =
      (passSub matchBareInclude (fun _ => true) ([] : List Char)
        (passSub matchFencedInclude (fun _ => true) ([] : List Char) content).1).1 := by
    rw [g1]
    exact passSub_fst _ _ _ _ _ _
  refine ⟨?_, ?_, by decide⟩
  · show (passSub matchSnippetMarker ex md
        (passSub matchBareInclude ex md
          (passSub matchFencedInclude ex md content).1).1).1 =
      (passSub matchSnippetMarker (fun _ => true) md
        (passSub matchBareInclude (fun _ => true) md
          (passSub matchFencedInclude (fun _ => true) md content).1).1).1
    rw [h2, g2]
    exact passSub_fst _ _ _ _ _ _
  · show (passSub matchFencedInclude ex md content).2 ++
        (passSub matchBareInclude ex md
          (passSub matchFencedInclude ex md content).1).2 ++
        (passSub matchSnippetMarker ex md
          (passSub matchBareInclude ex md
            (passSub matchFencedInclude ex md content).1).1).2 =
      ((includeMatchPaths content).filter (fun p => ! ex p)).map
        (fun p => (⟨p, md⟩ : SnipRef))
    rw [includeMatchPaths]
    simp only [List.filter_append, List.map_append]
    rw [passSub_snd matchFencedInclude ex md content]
    rw [passSub_snd matchBareInclude ex md, passSub_snd matchSnippetMarker ex md, h2, h1]

/-! ## C8: every FileMetadata entry passed the existence check -/

/-- Helper: membership after a dict assignment comes from the new binding or
from the old dict. -/
theorem dictInsert_mem (l : List (List Char × FileMeta)) (k : List Char)
    (v : FileMeta) (p : List Char) (m : FileMeta)
    (h : (p, m) ∈ dictInsert l k v) : (p, m) = (k, v) ∨ (p, m) ∈ l := by
  induction l with
  | nil =>
    rcases List.mem_singleton.mp h with heq
    exact Or.inl heq
  | cons e r ih =>
    rw [dictInsert] at h
    by_cases hk : e.1 = k
    · rw [if_pos hk] at h
      rcases List.mem_cons.mp h with heq | hold
      · exact Or.inl heq
      · exact Or.inr (List.mem_cons_of_mem e hold)
    · rw [if_neg hk] at h
      rcases List.mem_cons.mp h with heq | hold
      · exact Or.inr (heq ▸ List.mem_cons_self e r)
      · rcases ih hold with heq2 | hold2
        · exact Or.inl heq2
        · exact Or.inr (List.mem_cons_of_mem e hold2)

/-- Characterization: FileMetadata after a level-1 heading line. -/
theorem navLevel1_fm_header (fs : List Char → Bool) (st : NavState)
    (stripped name : List Char) (hh : matchHeaderLine stripped = some name) :
    (navLevel1 fs st stripped).fileMetadata = st.fileMetadata := by
  unfold navLevel1
  rw [hh]

/-- Characterization: FileMetadata after a level-1 inline leaf line. -/
theorem navLevel1_fm_leaf (fs : List Char → Bool) (st : NavState)
    (stripped title filepath : List Char)
    (hh : matchHeaderLine stripped = none)
    (hl : matchLeafLine stripped = some (title, filepath)) :
    (navLevel1 fs st stripped).fileMetadata =
      if fs filepath = true then
        dictInsert st.fileMetadata filepath
          ⟨title, some title, none, st.sectionWeight + 10⟩
      else st.fileMetadata := by
  unfold navLevel1
  rw [hh, hl]

/-- Characterization: FileMetadata after an unrecognized level-1 line. -/
theorem navLevel1_fm_none (fs : List Char → Bool) (st : NavState)
    (stripped : List Char) (hh : matchHeaderLine stripped = none)
    (hl : matchLeafLine stripped = none) :
    (navLevel1 fs st stripped).fileMetadata = st.fileMetadata := by
  unfold navLevel1
  rw [hh, hl]

/-- Characterization: FileMetadata after a level-2 subsection heading. -/
theorem navLevel2_fm_header (fs : List Char → Bool) (st : NavState)
    (stripped name : List Char) (hh : matchHeaderLine stripped = some name) :
    (navLevel2 fs st stripped).fileMetadata = st.fileMetadata := by
  unfold navLevel2
  rw [hh]

/-- Characterization: FileMetadata after a level-2 named leaf line. -/
theorem navLevel2_fm_leaf (fs : List Char → Bool) (st : NavState)
    (stripped title filepath : List Char)
    (hh : matchHeaderLine stripped = none)
    (hl : matchLeafLine stripped = some (title, filepath)) :
    (navLevel2 fs st stripped).fileMetadata =
      if fs filepath = true then
        dictInsert st.fileMetadata filepath
          ⟨title, st.curSection, st.curSubsection, st.itemWeight + 10⟩
      else st.fileMetadata := by
  unfold navLevel2
  rw [hh, hl]

/-- Characterization: FileMetadata after a level-2 quoted leaf line. -/
theorem navLevel2_fm_quoted (fs : List Char → Bool) (st : NavState)
    (stripped filepath : List Char)
    (hh : matchHeaderLine stripped = none)
    (hl : matchLeafLine stripped = none)
    (hq : matchQuotedLine stripped = some filepath) :
    (navLevel2 fs st stripped).fileMetadata =
      if fs filepath = true then
        dictInsert st.fileMetadata filepath
          ⟨titleFromPath filepath, st.curSection, st.curSubsection, st.itemWeight + 10⟩
      else st.fileMetadata := by
  unfold navLevel2
  rw [hh, hl, hq]
  rfl

/-- Characterization: FileMetadata after an unrecognized level-2 line. -/
theorem navLevel2_fm_none (fs : List Char → Bool) (st : NavState)
    (stripped : List Char) (hh : matchHeaderLine stripped = none)
    (hl : matchLeafLine stripped = none) (hq : matchQuotedLine stripped = none) :
    (navLevel2 fs st stripped).fileMetadata = st.fileMetadata := by
  unfold navLevel2
  rw [hh, hl, hq]
  rfl

/-- Characterization: FileMetadata after a level-3 named leaf line. -/
theorem navLevel3_fm_leaf (fs : List Char → Bool) (st : NavState)
    (stripped title filepath : List Char)
    (hl : matchLeafLine stripped = some (title, filepath)) :
    (navLevel3 fs st stripped).fileMetadata =
      if fs filepath = true then
        dictInsert st.fileMetadata filepath
          ⟨title, st.curSection, st.curSubsection, st.itemWeight + 10⟩
      else st.fileMetadata := by
  unfold navLevel3
  rw [hl]

/-- Characterization: FileMetadata after a level-3 quoted leaf line. -/
theorem navLevel3_fm_quoted (fs : List Char → Bool) (st : NavState)
    (stripped filepath : List Char)
    (hl : matchLeafLine stripped = none)
    (hq : matchQuotedLine stripped = some filepath) :
    (navLevel3 fs st stripped).fileMetadata =
      if fs filepath = true then
        dictInsert st.fileMetadata filepath
          ⟨titleFromPath filepath, st.curSection, st.curSubsection, st.itemWeight + 10⟩
      else st.fileMetadata := by
  unfold navLevel3
  rw [hl, hq]
  rfl

/-- Characterization: FileMetadata after an unrecognized level-3 line. -/
theorem navLevel3_fm_none (fs : List Char → Bool) (st : NavState)
    (stripped : List Char)
    (hl : matchLeafLine stripped = none) (hq : matchQuotedLine stripped = none) :
    (navLevel3 fs st stripped).fileMetadata = st.fileMetadata := by
  unfold navLevel3
  rw [hl, hq]
  rfl

/-- Helper: membership in an if-guarded dict assignment comes from the new
binding (with the guard true) or from the old dict. -/
theorem ifInsert_mem (fs : List Char → Bool) (l : List (List Char × FileMeta))
    (k : List Char) (v : FileMeta) (p : List Char) (m : FileMeta)
    (h : (p, m) ∈ (if fs k = true then dictInsert l k v else l)) :
    (p, m) ∈ l ∨ fs p = true := by
  by_cases hfs : fs k = true
  · rw [if_pos hfs] at h
    rcases dictInsert_mem l k v p m h with hnew | hold
    · have hp : p = k := congrArg Prod.fst hnew
      exact Or.inr (hp ▸ hfs)
    · exact Or.inl hold
  · rw [if_neg hfs] at h
    exact Or.inl h

/-- Helper: a level-1 line only adds entries whose path passed the
existence test. -/
theorem navLevel1_fm_sub (fs : List Char → Bool) (st : NavState)
    (stripped : List Char) (p : List Char) (m : FileMeta)
    (h : (p, m) ∈ (navLevel1 fs st stripped).fileMetadata) :
    (p, m) ∈ st.fileMetadata ∨ fs p = true := by
  cases hh : matchHeaderLine stripped with
  | some name =>
    rw [navLevel1_fm_header fs st stripped name hh] at h
    exact Or.inl h
  | none =>
    cases hl : matchLeafLine stripped with
    | some tp =>
      rw [navLevel1_fm_leaf fs st stripped tp.1 tp.2 hh (by rw [hl])] at h
      exact ifInsert_mem fs _ _ _ p m h
    | none =>
      rw [navLevel1_fm_none fs st stripped hh hl] at h
      exact Or.inl h

/-- Helper: a level-2 line only adds entries whose path passed the
existence test. -/
theorem navLevel2_fm_sub (fs : List Char → Bool) (st : NavState)
    (stripped : List Char) (p : List Char) (m : FileMeta)
    (h : (p, m) ∈ (navLevel2 fs st stripped).fileMetadata) :
    (p, m) ∈ st.fileMetadata ∨ fs p = true := by
  cases hh : matchHeaderLine stripped with
  | some name =>
    rw [navLevel2_fm_header fs st stripped name hh] at h
    exact Or.inl h
  | none =>
    cases hl : matchLeafLine stripped with
    | some tp =>
      rw [navLevel2_fm_leaf fs st stripped tp.1 tp.2 hh (by rw [hl])] at h
      exact ifInsert_mem fs _ _ _ p m h
    | none =>
      cases hq : matchQuotedLine stripped with
      | some fp =>
        rw [navLevel2_fm_quoted fs st stripped fp hh hl hq] at h
        exact ifInsert_mem fs _ _ _ p m h
      | none =>
        rw [navLevel2_fm_none fs st stripped hh hl hq] at h
        exact Or.inl h

/-- Helper: a level-3 line only adds entries whose path passed the
existence test. -/
theorem navLevel3_fm_sub (fs : List Char → Bool) (st : NavState)
    (stripped : List Char) (p : List Char) (m : FileMeta)
    (h : (p, m) ∈ (navLevel3 fs st stripped).fileMetadata) :
    (p, m) ∈ st.fileMetadata ∨ fs p = true := by
  cases hl : matchLeafLine stripped with
  | some tp =>
    rw [navLevel3_fm_leaf fs st stripped tp.1 tp.2 (by rw [hl])] at h
    exact ifInsert_mem fs _ _ _ p m h
  | none =>
    cases hq : matchQuotedLine stripped with
    | some fp =>
      rw [navLevel3_fm_quoted fs st stripped fp hl hq] at h
      exact ifInsert_mem fs _ _ _ p m h
    | none =>
      rw [navLevel3_fm_none fs st stripped hl hq] at h
      exact Or.inl h

/-- Helper: one parser step only adds entries whose path passed the
existence test. -/
theorem navStepLine_fm_sub (fs : List Char → Bool) (st : NavState)
    (line : List Char) (p : List Char) (m : FileMeta)
    (h : (p, m) ∈ (navStepLine fs st line).fileMetadata) :
    (p, m) ∈ st.fileMetadata ∨ fs p = true := by
  simp only [navStepLine] at h
  split at h
  · exact Or.inl h
  · split at h
    · exact navLevel1_fm_sub fs st _ p m h
    · split at h
      · exact navLevel2_fm_sub fs st _ p m h
      · split at h
        · exact navLevel3_fm_sub fs st _ p m h
        · exact Or.inl h

/-- Helper: the walk only adds entries whose path passed the existence
test. -/
theorem navWalk_fm_sub (fs : List Char → Bool) (lines : List (List Char)) :
    ∀ (st : NavState) (p : List Char) (m : FileMeta),
      (p, m) ∈ (navWalk fs st lines).fileMetadata →
      (p, m) ∈ st.fileMetadata ∨ fs p = true := by
  induction lines with
  | nil => intro st p m h; exact Or.inl h
  | cons l ls ih =>
    intro st p m h
    rw [navWalk] at h
    split at h
    · exact Or.inl h
    · rcases ih _ p m h with hin | hfs
      · exact navStepLine_fm_sub fs st l p m hin
      · exact Or.inr hfs

/-- C8.  Every entry of the FileMetadata map built by the parser refers to a
path that passed the existence check at parse time; equivalently, a leaf
whose referenced file does not exist is never added. -/
theorem c8_entries_exist (navLines : List (List Char)) (fs : List Char → Bool)
    (p : List Char) (m : FileMeta)
    (h : (p, m) ∈ (parse_mkdocs_nav navLines fs).fileMetadata) : fs p = true := by
  rcases navWalk_fm_sub fs navLines initNavState p m h with hin | hfs
  · cases hin
  · exact hfs

/-- C8, witness: the existing file is in the map and the theorem applies to
it; the non-existing one was dropped. -/
theorem c8_entries_exist_witness :
    ((str "docs/a.md", (⟨str "Docs", some (str "Docs"), none, 10⟩ : FileMeta)) ∈
        (parse_mkdocs_nav c8Lines c8Fs).fileMetadata) ∧
    c8Fs (str "docs/a.md") = true :=
  ⟨by decide,
   c8_entries_exist c8Lines c8Fs (str "docs/a.md") ⟨str "Docs", some (str "Docs"), none, 10⟩
     (by decide)⟩

/-! ## C10: leaves and the `.md` requirement -/

/-- Helper: a generic property-propagation for the accumulator fold behind
`lastMdIdx`-style searches. -/
theorem foldl_lastIdx_pred (step : Option Nat → Nat → Option Nat)
    (P : Nat → Prop)
    (hstep : ∀ acc i L, step acc i = some L → acc = some L ∨ P L)
    (idxs : List Nat) :
    ∀ acc, (∀ L, acc = some L → P L) →
      ∀ L, idxs.foldl step acc = some L → P L := by
  induction idxs with
  | nil => intro acc hacc L h; exact hacc L h
  | cons i r ih =>
    intro acc hacc L h
    refine ih (step acc i) ?_ L h
    intro L2 h2
    rcases hstep acc i L2 h2 with hold | hP
    · exact hacc L2 hold
    · exact hP

/-- Specification of `lastMdIdx`: a returned index is at least 1 and marks
an `.md` occurrence. -/
theorem lastMdIdx_spec (u : List Char) (L : Nat) (h : lastMdIdx u = some L) :
    1 ≤ L ∧ isMdAt u L = true := by
  unfold lastMdIdx at h
  refine foldl_lastIdx_pred _ (fun L => 1 ≤ L ∧ isMdAt u L = true) ?_ _ none
    (fun L hL => by cases hL) L h
  intro acc i L2 h2
  by_cases hc : 1 ≤ i ∧ isMdAt u i = true
  · right
    rw [if_pos hc] at h2
    cases h2
    exact hc
  · left
    rw [if_neg hc] at h2
    exact h2

/-- Specification of `lastMdDqIdx`: a returned index is at least 1, marks an
`.md` occurrence, and is followed by a double quote. -/
theorem lastMdDqIdx_spec (u : List Char) (L : Nat) (h : lastMdDqIdx u = some L) :
    1 ≤ L ∧ isMdAt u L = true ∧ u[L + 3]? = some dquote := by
  unfold lastMdDqIdx at h
  refine foldl_lastIdx_pred _
    (fun L => 1 ≤ L ∧ isMdAt u L = true ∧ u[L + 3]? = some dquote) ?_ _ none
    (fun L hL => by cases hL) L h
  intro acc i L2 h2
  by_cases hc : 1 ≤ i ∧ isMdAt u i = true ∧ u[i + 3]? = some dquote
  · right
    rw [if_pos hc] at h2
    cases h2
    exact hc
  · left
    rw [if_neg hc] at h2
    exact h2

/-- Helper: the three characters at an `.md` occurrence. -/
theorem isMdAt_get (u : List Char) (L : Nat) (h : isMdAt u L = true) :
    u[L]? = some '.' ∧ u[L + 1]? = some 'm' ∧ u[L + 2]? = some 'd' := by
  simpa [isMdAt] using h

/-- Helper: the text up to three characters past an `.md` occurrence ends in
`.md`. -/
theorem take_isMdAt (u : List Char) (L : Nat) (h : isMdAt u L = true) :
    u.take (L + 3) = u.take L ++ ['.', 'm', 'd'] := by
  obtain ⟨h0, h1, h2⟩ := isMdAt_get u L h
  rw [show L + 3 = (L + 2) + 1 from rfl, List.take_succ, h2]
  rw [show L + 2 = (L + 1) + 1 from rfl, List.take_succ, h1]
  rw [List.take_succ, h0]
  simp

/-- Helper: an `.md` occurrence bounds the length from below. -/
theorem isMdAt_lt_length (u : List Char) (L : Nat) (h : isMdAt u L = true) :
    L + 2 < u.length := by
  obtain ⟨_, _, h2⟩ := isMdAt_get u L h
  by_contra hge
  rw [List.getElem?_eq_none (by omega)] at h2
  cases h2

/-- Helper: the string form of the `.md` suffix. -/
theorem str_md : str ".md" = ['.', 'm', 'd'] := by decide

/-- Helper: the filepath captured by the inline-leaf matcher ends in
`.md`. -/
theorem matchLeafLine_md (s tl fp : List Char)
    (h : matchLeafLine s = some (tl, fp)) : ∃ q, fp = q ++ str ".md" := by
  unfold matchLeafLine at h
  split at h
  · split at h
    · obtain ⟨w, _, hw⟩ := findSome?_mem _ _ _ h
      obtain ⟨i, _, hi⟩ := findSome?_mem _ _ _ hw
      split at hi
      · simp only [] at hi
        split at hi
        · split at hi
          · rename_i L hL
            split at hi
            · rename_i hL2
              cases hi
              obtain ⟨hL1, hmd⟩ := lastMdIdx_spec _ _ hL
              have hlt := isMdAt_lt_length _ _ hmd
              rw [take_isMdAt _ _ hmd]
              rw [List.drop_append_of_le_length
                (by rw [List.length_take]; omega)]
              exact ⟨_, by rw [str_md]⟩
            · cases hi
          · cases hi
        · cases hi
      · cases hi
    · cases h
  · cases h

/-- Helper: the filepath captured by the quoted-leaf matcher ends in
`.md`. -/
theorem matchQuotedLine_md (s fp : List Char)
    (h : matchQuotedLine s = some fp) : ∃ q, fp = q ++ str ".md" := by
  unfold matchQuotedLine at h
  split at h
  · simp only [] at h
    split at h
    · split at h
      · rw [Option.map_eq_some'] at h
        obtain ⟨L, hL, hfp⟩ := h
        obtain ⟨hL1, hmd, _⟩ := lastMdDqIdx_spec _ _ hL
        rw [← hfp, take_isMdAt _ _ hmd]
        exact ⟨_, by rw [str_md]⟩
      · cases h
    · cases h
  · cases h

/-- Helper: an `.md` occurrence survives passing to a superlist. -/
theorem isMdAt_ofInfix (u v : List Char) (hinf : u <:+: v) (i : Nat)
    (h : isMdAt u i = true) : ∃ j, isMdAt v j = true := by
  obtain ⟨sP, sS, hv⟩ := hinf
  obtain ⟨h0, h1, h2⟩ := isMdAt_get u i h
  have hlt0 : i < u.length := by
    have := isMdAt_lt_length u i h
    omega
  have hlt1 : i + 1 < u.length := by
    have := isMdAt_lt_length u i h
    omega
  have hlt2 : i + 2 < u.length := isMdAt_lt_length u i h
  refine ⟨sP.length + i, ?_⟩
  have hget : ∀ k, k < u.length → v[sP.length + k]? = u[k]? := by
    intro k hk
    rw [← hv, List.append_assoc, List.getElem?_append_right (by omega),
        Nat.add_sub_cancel_left, List.getElem?_append_left hk]
  have e0 : v[sP.length + i]? = some '.' := by rw [hget i hlt0]; exact h0
  have e1 : v[sP.length + i + 1]? = some 'm' := by
    rw [show sP.length + i + 1 = sP.length + (i + 1) from by omega, hget (i + 1) hlt1]
    exact h1
  have e2 : v[sP.length + i + 2]? = some 'd' := by
    rw [show sP.length + i + 2 = sP.length + (i + 2) from by omega, hget (i + 2) hlt2]
    exact h2
  simp [isMdAt, e0, e1, e2]

/-- Helper: `hasMd` holds as soon as one occurrence exists. -/
theorem hasMd_of_isMdAt (v : List Char) (j : Nat) (h : isMdAt v j = true) :
    hasMd v = true := by
  have hj : j < v.length := by
    have := isMdAt_lt_length v j h
    omega
  unfold hasMd
  rw [List.any_eq_true]
  exact ⟨j, List.mem_range.mpr hj, h⟩

/-- Helper: `hasMd` is monotone along the infix order. -/
theorem hasMd_ofInfix (u v : List Char) (hinf : u <:+: v) (h : hasMd u = true) :
    hasMd v = true := by
  unfold hasMd at h
  rw [List.any_eq_true] at h
  obtain ⟨i, _, hmd⟩ := h
  obtain ⟨j, hj⟩ := isMdAt_ofInfix u v hinf i hmd
  exact hasMd_of_isMdAt v j hj

/-- Helper: the stripped line is an infix of the line. -/
theorem pyStrip_isInfix (l : List Char) : pyStrip l <:+: l := by
  have h1 : pyLstrip l <:+ l := List.dropWhile_suffix isPyWs
  have h2 : pyRstrip (pyLstrip l) <+: pyLstrip l := by
    unfold pyRstrip
    have h3 : ((pyLstrip l).reverse.dropWhile isPyWs) <:+ (pyLstrip l).reverse :=
      List.dropWhile_suffix isPyWs
    have h4 := (@List.reverse_suffix Char
      (((pyLstrip l).reverse.dropWhile isPyWs).reverse) (pyLstrip l)).mp
    apply h4
    rw [List.reverse_reverse]
    exact h3
  exact List.IsInfix.trans h2.isInfix h1.isInfix

/-- Helper: a successful inline-leaf match implies an `.md` occurrence in
the matched line. -/
theorem matchLeafLine_hasMd (s : List Char) (tp : List Char × List Char)
    (h : matchLeafLine s = some tp) : hasMd s = true := by
  unfold matchLeafLine at h
  split at h
  · rename_i c rest
    split at h
    · obtain ⟨w, _, hw⟩ := findSome?_mem _ _ _ h
      obtain ⟨i, _, hi⟩ := findSome?_mem _ _ _ hw
      split at hi
      · simp only [] at hi
        split at hi
        · split at hi
          · rename_i L hL
            obtain ⟨_, hmd⟩ := lastMdIdx_spec _ _ hL
            have hsuf : (List.drop (i + 1) (List.drop w rest)) <:+ (c :: rest) := by
              rw [List.drop_drop]
              exact (List.drop_suffix _ rest).trans (List.suffix_cons c rest)
            obtain ⟨j, hj⟩ := isMdAt_ofInfix _ _ hsuf.isInfix L hmd
            exact hasMd_of_isMdAt _ j hj
          · cases hi
        · cases hi
      · cases hi
    · cases h
  · cases h

/-- Helper: a successful quoted-leaf match implies an `.md` occurrence in
the matched line. -/
theorem matchQuotedLine_hasMd (s : List Char) (fp : List Char)
    (h : matchQuotedLine s = some fp) : hasMd s = true := by
  unfold matchQuotedLine at h
  split at h
  · rename_i c rest
    simp only [] at h
    split at h
    · split at h
      · rw [Option.map_eq_some'] at h
        obtain ⟨L, hL, _⟩ := h
        obtain ⟨_, hmd, _⟩ := lastMdDqIdx_spec _ _ hL
        have hsuf : rest.drop (wsCount rest + 1) <:+ (c :: rest) :=
          (List.drop_suffix _ rest).trans (List.suffix_cons c rest)
        obtain ⟨j, hj⟩ := isMdAt_ofInfix _ _ hsuf.isInfix L hmd
        exact hasMd_of_isMdAt _ j hj
      · cases h
    · cases h
  · cases h

/-- Helper: membership in an if-guarded dict assignment comes from the new
binding (whose key is the given one) or from the old dict. -/
theorem ifInsert_mem_key (cond : Bool) (l : List (List Char × FileMeta))
    (k : List Char) (v : FileMeta) (p : List Char) (m : FileMeta)
    (h : (p, m) ∈ (if cond = true then dictInsert l k v else l)) :
    (p, m) ∈ l ∨ p = k := by
  by_cases hc : cond = true
  · rw [if_pos hc] at h
    rcases dictInsert_mem l k v p m h with hnew | hold
    · exact Or.inr (congrArg Prod.fst hnew)
    · exact Or.inl hold
  · rw [if_neg hc] at h
    exact Or.inl h

/-- Helper: a level-1 line only adds keys ending in `.md`. -/
theorem navLevel1_fm_md (fs : List Char → Bool) (st : NavState)
    (stripped : List Char) (p : List Char) (m : FileMeta)
    (h : (p, m) ∈ (navLevel1 fs st stripped).fileMetadata) :
    (p, m) ∈ st.fileMetadata ∨ ∃ q, p = q ++ str ".md" := by
  cases hh : matchHeaderLine stripped with
  | some name =>
    rw [navLevel1_fm_header fs st stripped name hh] at h
    exact Or.inl h
  | none =>
    cases hl : matchLeafLine stripped with
    | some tp =>
      rw [navLevel1_fm_leaf fs st stripped tp.1 tp.2 hh (by rw [hl])] at h
      rcases ifInsert_mem_key _ _ _ _ p m h with hold | hkey
      · exact Or.inl hold
      · exact Or.inr (hkey ▸ matchLeafLine_md stripped tp.1 tp.2 (by rw [hl]))
    | none =>
      rw [navLevel1_fm_none fs st stripped hh hl] at h
      exact Or.inl h

/-- Helper: a level-2 line only adds keys ending in `.md`. -/
theorem navLevel2_fm_md (fs : List Char → Bool) (st : NavState)
    (stripped : List Char) (p : List Char) (m : FileMeta)
    (h : (p, m) ∈ (navLevel2 fs st stripped).fileMetadata) :
    (p, m) ∈ st.fileMetadata ∨ ∃ q, p = q ++ str ".md" := by
  cases hh : matchHeaderLine stripped with
  | some name =>
    rw [navLevel2_fm_header fs st stripped name hh] at h
    exact Or.inl h
  | none =>
    cases hl : matchLeafLine stripped with
    | some tp =>
      rw [navLevel2_fm_leaf fs st stripped tp.1 tp.2 hh (by rw [hl])] at h
      rcases ifInsert_mem_key _ _ _ _ p m h with hold | hkey
      · exact Or.inl hold
      · exact Or.inr (hkey ▸ matchLeafLine_md stripped tp.1 tp.2 (by rw [hl]))
    | none =>
      cases hq : matchQuotedLine stripped with
      | some fp =>
        rw [navLevel2_fm_quoted fs st stripped fp hh hl hq] at h
        rcases ifInsert_mem_key _ _ _ _ p m h with hold | hkey
        · exact Or.inl hold
        · exact Or.inr (hkey ▸ matchQuotedLine_md stripped fp hq)
      | none =>
        rw [navLevel2_fm_none fs st stripped hh hl hq] at h
        exact Or.inl h

/-- Helper: a level-3 line only adds keys ending in `.md`. -/
theorem navLevel3_fm_md (fs : List Char → Bool) (st : NavState)
    (stripped : List Char) (p : List Char) (m : FileMeta)
    (h : (p, m) ∈ (navLevel3 fs st stripped).fileMetadata) :
    (p, m) ∈ st.fileMetadata ∨ ∃ q, p = q ++ str ".md" := by
  cases hl : matchLeafLine stripped with
  | some tp =>
    rw [navLevel3_fm_leaf fs st stripped tp.1 tp.2 (by rw [hl])] at h
    rcases ifInsert_mem_key _ _ _ _ p m h with hold | hkey
    · exact Or.inl hold
    · exact Or.inr (hkey ▸ matchLeafLine_md stripped tp.1 tp.2 (by rw [hl]))
  | none =>
    cases hq : matchQuotedLine stripped with
    | some fp =>
      rw [navLevel3_fm_quoted fs st stripped fp hl hq] at h
      rcases ifInsert_mem_key _ _ _ _ p m h with hold | hkey
      · exact Or.inl hold
      · exact Or.inr (hkey ▸ matchQuotedLine_md stripped fp hq)
    | none =>
      rw [navLevel3_fm_none fs st stripped hl hq] at h
      exact Or.inl h

/-- Helper: one parser step only adds keys ending in `.md`. -/
theorem navStepLine_fm_md (fs : List Char → Bool) (st : NavState)
    (line : List Char) (p : List Char) (m : FileMeta)
    (h : (p, m) ∈ (navStepLine fs st line).fileMetadata) :
    (p, m) ∈ st.fileMetadata ∨ ∃ q, p = q ++ str ".md" := by
  simp only [navStepLine] at h
  split at h
  · exact Or.inl h
  · split at h
    · exact navLevel1_fm_md fs st _ p m h
    · split at h
      · exact navLevel2_fm_md fs st _ p m h
      · split at h
        · exact navLevel3_fm_md fs st _ p m h
        · exact Or.inl h

/-- Helper: the walk only adds keys ending in `.md`. -/
theorem navWalk_fm_md (fs : List Char → Bool) (lines : List (List Char)) :
    ∀ (st : NavState) (p : List Char) (m : FileMeta),
      (p, m) ∈ (navWalk fs st lines).fileMetadata →
      (p, m) ∈ st.fileMetadata ∨ ∃ q, p = q ++ str ".md" := by
  induction lines with
  | nil => intro st p m h; exact Or.inl h
  | cons l ls ih =>
    intro st p m h
    rw [navWalk] at h
    split at h
    · exact Or.inl h
    · rcases ih _ p m h with hin | hmd
      · exact navStepLine_fm_md fs st l p m hin
      · exact Or.inr hmd

/-- Helper: a parser step over a line containing no `.md` occurrence leaves
FileMetadata unchanged (a matched heading changes only the section state). -/
theorem navStepLine_fm_noMd (fs : List Char → Bool) (st : NavState)
    (line : List Char) (h : hasMd line = false) :
    (navStepLine fs st line).fileMetadata = st.fileMetadata := by
  have hstrip : ∀ tp, matchLeafLine (pyStrip line) = some tp → False := by
    intro tp hl
    have h1 : hasMd (pyStrip line) = true := matchLeafLine_hasMd _ tp hl
    have h2 : hasMd line = true := hasMd_ofInfix _ _ (pyStrip_isInfix line) h1
    rw [h] at h2
    cases h2
  have hstripq : ∀ fp, matchQuotedLine (pyStrip line) = some fp → False := by
    intro fp hq
    have h1 : hasMd (pyStrip line) = true := matchQuotedLine_hasMd _ fp hq
    have h2 : hasMd line = true := hasMd_ofInfix _ _ (pyStrip_isInfix line) h1
    rw [h] at h2
    cases h2
  have hleaf : matchLeafLine (pyStrip line) = none := by
    cases hl : matchLeafLine (pyStrip line) with
    | some tp => exact absurd hl (fun hx => hstrip tp hx)
    | none => rfl
  have hquot : matchQuotedLine (pyStrip line) = none := by
    cases hq : matchQuotedLine (pyStrip line) with
    | some fp => exact absurd hq (fun hx => hstripq fp hx)
    | none => rfl
  simp only [navStepLine]
  split
  · rfl
  · split
    · cases hh : matchHeaderLine (pyStrip line) with
      | some name => exact navLevel1_fm_header fs st _ name hh
      | none => exact navLevel1_fm_none fs st _ hh hleaf
    · split
      · cases hh : matchHeaderLine (pyStrip line) with
        | some name => exact navLevel2_fm_header fs st _ name hh
        | none => exact navLevel2_fm_none fs st _ hh hleaf hquot
      · split
        · exact navLevel3_fm_none fs st _ hleaf hquot
        · rfl

/-- C10, counterexample.  The leaf regex has no end anchor: on the line
`- Foo: guide/x.md.bak`, whose path lacks the `.md` suffix, the capture is
cut at the last `.md` occurrence, and (the referenced file existing) a
FileMetadata entry for `guide/x.md` is recorded — the line is not silently
skipped, refuting the claim. -/
theorem c10_counterexample :
    (parse_mkdocs_nav c10Lines (fun _ => true)).fileMetadata =
      [(str "guide/x.md", ⟨str "Foo", some (str "Foo"), none, 10⟩)] ∧
    ¬ (parse_mkdocs_nav c10Lines (fun _ => true)).fileMetadata = [] := by
  decide

/-- C10, amended.  Every key the parser records in FileMetadata ends in
`.md` (the captured path is truncated at the last `.md` occurrence of the
path text, so a path containing `.md` without ending in it still yields an
entry for the truncated path); and a line containing no `.md` occurrence at
all never modifies FileMetadata, whichever state the parser is in. -/
theorem c10_amended :
    (∀ (navLines : List (List Char)) (fs : List Char → Bool)
        (p : List Char) (m : FileMeta),
        (p, m) ∈ (parse_mkdocs_nav navLines fs).fileMetadata →
        ∃ q, p = q ++ str ".md") ∧
    (∀ (fs : List Char → Bool) (st : NavState) (line : List Char),
        hasMd line = false →
        (navStepLine fs st line).fileMetadata = st.fileMetadata) := by
  constructor
  · intro navLines fs p m h
    rcases navWalk_fm_md fs navLines initNavState p m h with hin | hmd
    · cases hin
    · exact hmd
  · intro fs st line h
    exact navStepLine_fm_noMd fs st line h

/-- C10, witness: the recorded key of the counterexample line ends in
`.md`, and a level-2 line referencing `notes.txt` (no `.md` occurrence)
leaves the map unchanged. -/
theorem c10_amended_witness :
    (((str "guide/x.md", (⟨str "Foo", some (str "Foo"), none, 10⟩ : FileMeta)) ∈
        (parse_mkdocs_nav c10Lines (fun _ => true)).fileMetadata) ∧
     (∃ q, str "guide/x.md" = q ++ str ".md")) ∧
    (hasMd (str "      - Plain: notes.txt") = false ∧
     (navStepLine (fun _ => true) initNavState
        (str "      - Plain: notes.txt")).fileMetadata = initNavState.fileMetadata) :=
  ⟨⟨by decide,
    c10_amended.1 c10Lines (fun _ => true) (str "guide/x.md")
      ⟨str "Foo", some (str "Foo"), none, 10⟩ (by decide)⟩,
   ⟨by decide,
    c10_amended.2 (fun _ => true) initNavState (str "      - Plain: notes.txt") (by decide)⟩⟩

/-! ## C2: weight monotonicity

The ghost trace records one `sec` event per level-1 line (every such line
advances the section counter and reseeds the item counter, whether or not
it parses) and one `leaf` event per FileMetadata write.  The claim is
settled over this trace and over the recorded metadata. -/

/-- Helper: appending a `sec` event preserves the leaf ordering
predicate. -/
theorem leafOkFrom_append_sec (tr : List NavEvent) (w : Nat) :
    ∀ a, leafOkFrom a (tr ++ [NavEvent.sec w]) ↔ leafOkFrom a tr := by
  induction tr with
  | nil =>
    intro a
    constructor
    · intro _; trivial
    · intro _; exact trivial
  | cons e r ih =>
    intro a
    cases e with
    | sec v => exact ih none
    | leaf v =>
      constructor
      · intro h; exact ⟨h.1, (ih (some v)).mp h.2⟩
      · intro h; exact ⟨h.1, (ih (some v)).mpr h.2⟩

/-- Helper: appending a `leaf` event requires it to dominate the open
leaf. -/
theorem leafOkFrom_append_leaf (tr : List NavEvent) (w : Nat) :
    ∀ a, leafOkFrom a (tr ++ [NavEvent.leaf w]) ↔
      (leafOkFrom a tr ∧ ∀ l ∈ lastOpen a tr, l < w) := by
  induction tr with
  | nil =>
    intro a
    constructor
    · intro h; exact ⟨trivial, h.1⟩
    · intro h; exact ⟨h.2, trivial⟩
  | cons e r ih =>
    intro a
    cases e with
    | sec v =>
      constructor
      · intro h
        obtain ⟨h1, h2⟩ := (ih none).mp h
        exact ⟨h1, h2⟩
      · intro h
        exact (ih none).mpr ⟨h.1, h.2⟩
    | leaf v =>
      constructor
      · intro h
        obtain ⟨h1, h2⟩ := (ih (some v)).mp h.2
        exact ⟨⟨h.1, h1⟩, h2⟩
      · intro h
        exact ⟨h.1.1, (ih (some v)).mpr ⟨h.1.2, h.2⟩⟩

/-- Helper: the open leaf after appending a `sec` event. -/
theorem lastOpen_append_sec (tr : List NavEvent) (w : Nat) :
    ∀ a, lastOpen a (tr ++ [NavEvent.sec w]) = none := by
  induction tr with
  | nil => intro a; rfl
  | cons e r ih =>
    intro a
    cases e with
    | sec v => exact ih none
    | leaf v => exact ih (some v)

/-- Helper: the open leaf after appending a `leaf` event. -/
theorem lastOpen_append_leaf (tr : List NavEvent) (w : Nat) :
    ∀ a, lastOpen a (tr ++ [NavEvent.leaf w]) = some w := by
  induction tr with
  | nil => intro a; rfl
  | cons e r ih =>
    intro a
    cases e with
    | sec v => exact ih none
    | leaf v => exact ih (some v)

/-- Helper: the section weights after appending a `sec` event. -/
theorem secWeights_append_sec (tr : List NavEvent) (w : Nat) :
    secWeights (tr ++ [NavEvent.sec w]) = secWeights tr ++ [w] := by
  induction tr with
  | nil => rfl
  | cons e r ih =>
    cases e with
    | sec v => simp [secWeights, ih]
    | leaf v => simp [secWeights, ih]

/-- Helper: the section weights after appending a `leaf` event. -/
theorem secWeights_append_leaf (tr : List NavEvent) (w : Nat) :
    secWeights (tr ++ [NavEvent.leaf w]) = secWeights tr := by
  induction tr with
  | nil => rfl
  | cons e r ih =>
    cases e with
    | sec v => simp [secWeights, ih]
    | leaf v => simp [secWeights, ih]

/-- Helper: unfolding of the arithmetic sequence. -/
theorem tenSeq_succ (k : Nat) : tenSeq (k + 1) = tenSeq k ++ [10 * (k + 1)] := by
  simp [tenSeq, List.range_succ]

/-- Characterization: counters and trace after a level-1 heading line. -/
theorem navLevel1_state_header (fs : List Char → Bool) (st : NavState)
    (stripped name : List Char) (hh : matchHeaderLine stripped = some name) :
    (navLevel1 fs st stripped).trace =
      st.trace ++ [NavEvent.sec (st.sectionWeight + 10)] ∧
    (navLevel1 fs st stripped).sectionWeight = st.sectionWeight + 10 ∧
    (navLevel1 fs st stripped).itemWeight = st.sectionWeight + 10 := by
  unfold navLevel1
  rw [hh]
  exact ⟨rfl, rfl, rfl⟩

/-- Characterization: counters and trace after a level-1 inline leaf. -/
theorem navLevel1_state_leaf (fs : List Char → Bool) (st : NavState)
    (stripped tl fp : List Char) (hh : matchHeaderLine stripped = none)
    (hl : matchLeafLine stripped = some (tl, fp)) :
    (navLevel1 fs st stripped).trace =
      st.trace ++ [NavEvent.sec (st.sectionWeight + 10)] ++
        (if fs fp = true then [NavEvent.leaf (st.sectionWeight + 10)] else []) ∧
    (navLevel1 fs st stripped).sectionWeight = st.sectionWeight + 10 ∧
    (navLevel1 fs st stripped).itemWeight = st.sectionWeight + 10 := by
  unfold navLevel1
  rw [hh, hl]
  exact ⟨rfl, rfl, rfl⟩

/-- Characterization: counters and trace after an unrecognized level-1
line. -/
theorem navLevel1_state_none (fs : List Char → Bool) (st : NavState)
    (stripped : List Char) (hh : matchHeaderLine stripped = none)
    (hl : matchLeafLine stripped = none) :
    (navLevel1 fs st stripped).trace =
      st.trace ++ [NavEvent.sec (st.sectionWeight + 10)] ∧
    (navLevel1 fs st stripped).sectionWeight = st.sectionWeight + 10 ∧
    (navLevel1 fs st stripped).itemWeight = st.sectionWeight + 10 := by
  unfold navLevel1
  rw [hh, hl]
  exact ⟨rfl, rfl, rfl⟩

/-- Characterization: counters and trace after a level-2 subsection
heading. -/
theorem navLevel2_state_header (fs : List Char → Bool) (st : NavState)
    (stripped name : List Char) (hh : matchHeaderLine stripped = some name) :
    (navLevel2 fs st stripped).trace = st.trace ∧
    (navLevel2 fs st stripped).sectionWeight = st.sectionWeight ∧
    (navLevel2 fs st stripped).itemWeight = st.itemWeight + 10 := by
  unfold navLevel2
  rw [hh]
  exact ⟨rfl, rfl, rfl⟩

/-- Characterization: counters and trace after a level-2 named leaf. -/
theorem navLevel2_state_leaf (fs : List Char → Bool) (st : NavState)
    (stripped tl fp : List Char) (hh : matchHeaderLine stripped = none)
    (hl : matchLeafLine stripped = some (tl, fp)) :
    (navLevel2 fs st stripped).trace =
      st.trace ++ (if fs fp = true then [NavEvent.leaf (st.itemWeight + 10)] else []) ∧
    (navLevel2 fs st stripped).sectionWeight = st.sectionWeight ∧
    (navLevel2 fs st stripped).itemWeight = st.itemWeight + 10 := by
  unfold navLevel2
  rw [hh, hl]
  exact ⟨rfl, rfl, rfl⟩

/-- Characterization: counters and trace after a level-2 quoted leaf. -/
theorem navLevel2_state_quoted (fs : List Char → Bool) (st : NavState)
    (stripped fp : List Char) (hh : matchHeaderLine stripped = none)
    (hl : matchLeafLine stripped = none) (hq : matchQuotedLine stripped = some fp) :
    (navLevel2 fs st stripped).trace =
      st.trace ++ (if fs fp = true then [NavEvent.leaf (st.itemWeight + 10)] else []) ∧
    (navLevel2 fs st stripped).sectionWeight = st.sectionWeight ∧
    (navLevel2 fs st stripped).itemWeight = st.itemWeight + 10 := by
  unfold navLevel2
  rw [hh, hl, hq]
  exact ⟨rfl, rfl, rfl⟩

/-- Characterization: counters and trace after an unrecognized level-2
line. -/
theorem navLevel2_state_none (fs : List Char → Bool) (st : NavState)
    (stripped : List Char) (hh : matchHeaderLine stripped = none)
    (hl : matchLeafLine stripped = none) (hq : matchQuotedLine stripped = none) :
    (navLevel2 fs st stripped).trace = st.trace ∧
    (navLevel2 fs st stripped).sectionWeight = st.sectionWeight ∧
    (navLevel2 fs st stripped).itemWeight = st.itemWeight + 10 := by
  unfold navLevel2
  rw [hh, hl, hq]
  exact ⟨rfl, rfl, rfl⟩

/-- Characterization: counters and trace after a level-3 named leaf. -/
theorem navLevel3_state_leaf (fs : List Char → Bool) (st : NavState)
    (stripped tl fp : List Char)
    (hl : matchLeafLine stripped = some (tl, fp)) :
    (navLevel3 fs st stripped).trace =
      st.trace ++ (if fs fp = true then [NavEvent.leaf (st.itemWeight + 10)] else []) ∧
    (navLevel3 fs st stripped).sectionWeight = st.sectionWeight ∧
    (navLevel3 fs st stripped).itemWeight = st.itemWeight + 10 := by
  unfold navLevel3
  rw [hl]
  exact ⟨rfl, rfl, rfl⟩

/-- Characterization: counters and trace after a level-3 quoted leaf. -/
theorem navLevel3_state_quoted (fs : List Char → Bool) (st : NavState)
    (stripped fp : List Char)
    (hl : matchLeafLine stripped = none) (hq : matchQuotedLine stripped = some fp) :
    (navLevel3 fs st stripped).trace =
      st.trace ++ (if fs fp = true then [NavEvent.leaf (st.itemWeight + 10)] else []) ∧
    (navLevel3 fs st stripped).sectionWeight = st.sectionWeight ∧
    (navLevel3 fs st stripped).itemWeight = st.itemWeight + 10 := by
  unfold navLevel3
  rw [hl, hq]
  exact ⟨rfl, rfl, rfl⟩

/-- Characterization: counters and trace after an unrecognized level-3
line. -/
theorem navLevel3_state_none (fs : List Char → Bool) (st : NavState)
    (stripped : List Char)
    (hl : matchLeafLine stripped = none) (hq : matchQuotedLine stripped = none) :
    (navLevel3 fs st stripped).trace = st.trace ∧
    (navLevel3 fs st stripped).sectionWeight = st.sectionWeight ∧
    (navLevel3 fs st stripped).itemWeight = st.itemWeight + 10 := by
  unfold navLevel3
  rw [hl, hq]
  exact ⟨rfl, rfl, rfl⟩

/-- Helper: the invariant survives a step that appends one `sec` event with
the advanced section counter and reseeds the item counter. -/
theorem inv_after_sec (st st2 : NavState)
    (htr : st2.trace = st.trace ++ [NavEvent.sec (st.sectionWeight + 10)])
    (hsw : st2.sectionWeight = st.sectionWeight + 10)
    (hiw : st2.itemWeight = st.sectionWeight + 10)
    (h : NavInv st) : NavInv st2 := by
  obtain ⟨⟨k, hk, hsec⟩, hleaf, hopen⟩ := h
  refine ⟨⟨k + 1, by omega, ?_⟩, ?_, ?_⟩
  · rw [htr, secWeights_append_sec, hsec, tenSeq_succ, hk, Nat.mul_succ]
  · rw [LeafIncreasing, htr]
    exact (leafOkFrom_append_sec st.trace _ none).mpr hleaf
  · intro l hl
    rw [htr, lastOpen_append_sec] at hl
    cases hl

/-- Helper: the invariant survives a level-1 step that may also record the
inline leaf at the reseeded counter value. -/
theorem inv_after_sec_leaf (st st2 : NavState) (cond : Bool)
    (htr : st2.trace = st.trace ++ [NavEvent.sec (st.sectionWeight + 10)] ++
      (if cond = true then [NavEvent.leaf (st.sectionWeight + 10)] else []))
    (hsw : st2.sectionWeight = st.sectionWeight + 10)
    (hiw : st2.itemWeight = st.sectionWeight + 10)
    (h : NavInv st) : NavInv st2 := by
  cases cond with
  | false =>
    rw [if_neg (by simp), List.append_nil] at htr
    exact inv_after_sec st st2 htr hsw hiw h
  | true =>
    rw [if_pos rfl] at htr
    obtain ⟨⟨k, hk, hsec⟩, hleaf, hopen⟩ := h
    refine ⟨⟨k + 1, by omega, ?_⟩, ?_, ?_⟩
    · rw [htr, secWeights_append_leaf, secWeights_append_sec, hsec, tenSeq_succ, hk,
          Nat.mul_succ]
    · rw [LeafIncreasing, htr]
      refine (leafOkFrom_append_leaf _ _ none).mpr ⟨?_, ?_⟩
      · exact (leafOkFrom_append_sec st.trace _ none).mpr hleaf
      · intro l hl
        rw [lastOpen_append_sec] at hl
        cases hl
    · intro l hl
      rw [htr, lastOpen_append_leaf] at hl
      cases hl
      rw [hiw]

/-- Helper: the invariant survives an item step (levels 2 and 3) that
advances the item counter and may record a leaf at its new value. -/
theorem inv_after_item (st st2 : NavState) (cond : Bool)
    (htr : st2.trace = st.trace ++
      (if cond = true then [NavEvent.leaf (st.itemWeight + 10)] else []))
    (hsw : st2.sectionWeight = st.sectionWeight)
    (hiw : st2.itemWeight = st.itemWeight + 10)
    (h : NavInv st) : NavInv st2 := by
  obtain ⟨⟨k, hk, hsec⟩, hleaf, hopen⟩ := h
  cases cond with
  | false =>
    rw [if_neg (by simp), List.append_nil] at htr
    refine ⟨⟨k, by rw [hsw]; exact hk, by rw [htr]; exact hsec⟩, ?_, ?_⟩
    · rw [LeafIncreasing, htr]
      exact hleaf
    · intro l hl
      rw [htr] at hl
      exact Nat.le_trans (hopen l hl) (by omega)
  | true =>
    rw [if_pos rfl] at htr
    refine ⟨⟨k, by rw [hsw]; exact hk, ?_⟩, ?_, ?_⟩
    · rw [htr, secWeights_append_leaf]
      exact hsec
    · rw [LeafIncreasing, htr]
      exact (leafOkFrom_append_leaf _ _ none).mpr
        ⟨hleaf, fun l hl => Nat.lt_of_le_of_lt (hopen l hl) (by omega)⟩
    · intro l hl
      rw [htr, lastOpen_append_leaf] at hl
      cases hl
      rw [hiw]

/-- Helper: a level-1 line preserves the invariant. -/
theorem navLevel1_inv (fs : List Char → Bool) (st : NavState)
    (stripped : List Char) (h : NavInv st) : NavInv (navLevel1 fs st stripped) := by
  cases hh : matchHeaderLine stripped with
  | some name =>
    obtain ⟨h1, h2, h3⟩ := navLevel1_state_header fs st stripped name hh
    exact inv_after_sec st _ h1 h2 h3 h
  | none =>
    cases hl : matchLeafLine stripped with
    | some tp =>
      obtain ⟨h1, h2, h3⟩ := navLevel1_state_leaf fs st stripped tp.1 tp.2 hh (by rw [hl])
      exact inv_after_sec_leaf st _ (fs tp.2) h1 h2 h3 h
    | none =>
      obtain ⟨h1, h2, h3⟩ := navLevel1_state_none fs st stripped hh hl
      exact inv_after_sec st _ h1 h2 h3 h

/-- Helper: a level-2 line preserves the invariant. -/
theorem navLevel2_inv (fs : List Char → Bool) (st : NavState)
    (stripped : List Char) (h : NavInv st) : NavInv (navLevel2 fs st stripped) := by
  cases hh : matchHeaderLine stripped with
  | some name =>
    obtain ⟨h1, h2, h3⟩ := navLevel2_state_header fs st stripped name hh
    exact inv_after_item st _ false (by rw [h1, if_neg (by simp), List.append_nil]) h2 h3 h
  | none =>
    cases hl : matchLeafLine stripped with
    | some tp =>
      obtain ⟨h1, h2, h3⟩ := navLevel2_state_leaf fs st stripped tp.1 tp.2 hh (by rw [hl])
      exact inv_after_item st _ (fs tp.2) h1 h2 h3 h
    | none =>
      cases hq : matchQuotedLine stripped with
      | some fp =>
        obtain ⟨h1, h2, h3⟩ := navLevel2_state_quoted fs st stripped fp hh hl hq
        exact inv_after_item st _ (fs fp) h1 h2 h3 h
      | none =>
        obtain ⟨h1, h2, h3⟩ := navLevel2_state_none fs st stripped hh hl hq
        exact inv_after_item st _ false (by rw [h1, if_neg (by simp), List.append_nil]) h2 h3 h

/-- Helper: a level-3 line preserves the invariant. -/
theorem navLevel3_inv (fs : List Char → Bool) (st : NavState)
    (stripped : List Char) (h : NavInv st) : NavInv (navLevel3 fs st stripped) := by
  cases hl : matchLeafLine stripped with
  | some tp =>
    obtain ⟨h1, h2, h3⟩ := navLevel3_state_leaf fs st stripped tp.1 tp.2 (by rw [hl])
    exact inv_after_item st _ (fs tp.2) h1 h2 h3 h
  | none =>
    cases hq : matchQuotedLine stripped with
    | some fp =>
      obtain ⟨h1, h2, h3⟩ := navLevel3_state_quoted fs st stripped fp hl hq
      exact inv_after_item st _ (fs fp) h1 h2 h3 h
    | none =>
      obtain ⟨h1, h2, h3⟩ := navLevel3_state_none fs st stripped hl hq
      exact inv_after_item st _ false (by rw [h1, if_neg (by simp), List.append_nil]) h2 h3 h

/-- Helper: one parser step preserves the invariant. -/
theorem navStepLine_inv (fs : List Char → Bool) (st : NavState)
    (line : List Char) (h : NavInv st) : NavInv (navStepLine fs st line) := by
  simp only [navStepLine]
  split
  · exact h
  · split
    · exact navLevel1_inv fs st _ h
    · split
      · exact navLevel2_inv fs st _ h
      · split
        · exact navLevel3_inv fs st _ h
        · exact h

/-- Helper: the walk preserves the invariant. -/
theorem navWalk_inv (fs : List Char → Bool) (lines : List (List Char)) :
    ∀ st : NavState, NavInv st → NavInv (navWalk fs st lines) := by
  induction lines with
  | nil => intro st h; exact h
  | cons l ls ih =>
    intro st h
    rw [navWalk]
    split
    · exact h
    · exact ih _ (navStepLine_inv fs st l h)

/-- Helper: processing a further stretch of trace keeps the leaf predicate,
with the accumulator advanced by the stretch. -/
theorem leafOkFrom_split (xs : List NavEvent) :
    ∀ (a : Option Nat) (rest : List NavEvent),
      leafOkFrom a (xs ++ rest) → leafOkFrom (lastOpen a xs) rest := by
  induction xs with
  | nil => intro a rest h; exact h
  | cons e r ih =>
    intro a rest h
    cases e with
    | sec v => exact ih none rest h
    | leaf v => exact ih (some v) rest h.2

/-- Helper: within a stretch free of `sec` events, a later leaf dominates
the seeded lower bound. -/
theorem leafOkFrom_chase (ys : List NavEvent) :
    ∀ (w1 w2 : Nat) (zs : List NavEvent),
      leafOkFrom (some w1) (ys ++ NavEvent.leaf w2 :: zs) →
      (∀ e ∈ ys, ∀ v, ¬ e = NavEvent.sec v) → w1 < w2 := by
  induction ys with
  | nil =>
    intro w1 w2 zs h _
    exact h.1 w1 rfl
  | cons e r ih =>
    intro w1 w2 zs h hns
    cases e with
    | sec v => exact absurd rfl (hns _ (List.mem_cons_self _ r) v)
    | leaf v =>
      have h1 : w1 < v := h.1 w1 rfl
      have h2 : v < w2 := ih v w2 zs h.2 (fun e he => hns e (List.mem_cons_of_mem _ he))
      omega

/-- Helper: the meaning of `LeafIncreasing` — any two leaf events with no
`sec` event between them are strictly ordered, however far apart. -/
theorem leafIncreasing_pairwise (tr : List NavEvent) (h : LeafIncreasing tr)
    (xs ys zs : List NavEvent) (w1 w2 : Nat)
    (htr : tr = xs ++ NavEvent.leaf w1 :: ys ++ NavEvent.leaf w2 :: zs)
    (hns : ∀ e ∈ ys, ∀ v, ¬ e = NavEvent.sec v) : w1 < w2 := by
  subst htr
  have h1 : leafOkFrom (lastOpen none (xs ++ [NavEvent.leaf w1]))
      (ys ++ NavEvent.leaf w2 :: zs) := by
    apply leafOkFrom_split (xs ++ [NavEvent.leaf w1]) none
    rw [List.append_assoc]
    simpa using h
  rw [lastOpen_append_leaf] at h1
  exact leafOkFrom_chase ys w1 w2 zs h1 hns

/-- C2, counterexample.  On this input the leaves `a/y.md` and `a/z.md` are
both recorded under section `A`, in that document order, with the equal
weights 30 and 30 — the weights of leaves within one section do not
strictly increase.  (The malformed line `- ?` advanced the counters without
starting a recognizable section, so the section weights visible in
SectionMetadata also jump by 20 rather than the fixed step.) -/
theorem c2_counterexample :
    (parse_mkdocs_nav c2Lines (fun _ => true)).fileMetadata =
      [(str "a/x.md", ⟨str "X", some (str "A"), none, 20⟩),
       (str "a/y.md", ⟨str "Y", some (str "A"), none, 30⟩),
       (str "a/z.md", ⟨str "Z", some (str "A"), none, 30⟩)] ∧
    ¬ (30 : Nat) < 30 := by
  decide

/-- C2, amended.  The section-counter values at successive level-1 lines
form the arithmetic sequence 10, 20, ..., strictly increasing by exactly
the step 10 in document order; and recorded leaf weights strictly increase
along every stretch of the document not crossing a level-1 line.  (Stated
over recorded metadata instead, the leaf clause fails: a malformed level-1
line advances the counters without changing the current section, letting
two leaves recorded under the same section share a weight.) -/
theorem c2_amended (navLines : List (List Char)) (fs : List Char → Bool) :
    (∃ k, (parse_mkdocs_nav navLines fs).sectionWeight = 10 * k ∧
      secWeights (parse_mkdocs_nav navLines fs).trace = tenSeq k) ∧
    LeafIncreasing (parse_mkdocs_nav navLines fs).trace := by
  have h : NavInv (parse_mkdocs_nav navLines fs) := by
    apply navWalk_inv
    exact ⟨⟨0, rfl, rfl⟩, trivial, fun l hl => by cases hl⟩
  exact ⟨h.1, h.2.1⟩

end Mkdocs
